import Mathlib

/-!
# GSM 04.08 Mobility Management elements (GSML3MMElements.cpp)

A shallow embedding of the information elements of
`src/OpenBTS/GSM/GSML3MMElements.cpp` and theorems about their encoders and
decoders.

Conventions of the embedding:

* C machine integers are `Nat` (unsigned) or `Int` (signed) with the
  conversions `toU8`, `toI8`, `toU32`, `toI32`, `toU64` written out where the
  source converts; signed `/` and `%` are `Int.tdiv` and `Int.tmod`
  (truncation toward zero).
* `size_t` cursors are `Nat`: they index a buffer held in memory and stay far
  below `2^64`.
* The bit frame (`BitVector`, `L3Frame`), whose code is not part of the
  source file, is modelled from the specification, section 4.1.
* The C library calls `localtime_r`, `gmtime_r` and `timegm`, and the
  alphabet table `encodeGSMChar`, are taken as parameters.
-/

namespace GSM

/-! ## C integer conversions -/

/-- Conversion to `unsigned char`. -/
def toU8 (x : Int) : Nat := (x % 256).toNat

/-- Conversion to a signed 8-bit `char`. -/
def toI8 (x : Int) : Int := (x + 128) % 256 - 128

/-- Conversion to 32-bit `unsigned`. -/
def toU32 (x : Int) : Nat := (x % 4294967296).toNat

/-- Conversion to 32-bit `int`. -/
def toI32 (x : Int) : Int := (x + 2147483648) % 4294967296 - 2147483648

/-- Conversion to `uint64_t`. -/
def toU64 (x : Int) : Nat := (x % 18446744073709551616).toNat

/-! ## L3AuthenticationParameterRAND -/

/-- The members of `L3AuthenticationParameterRAND`: the two `uint64_t` halves
and the 16-byte member buffer `rand` that `getRandToA3A8` fills and returns. -/
structure L3AuthenticationParameterRAND where
  mRANDHigh : Nat
  mRANDLow : Nat
  rand : List Nat
deriving Repr, DecidableEq

/-- The first two loops of `getRandToA3A8`: the `char` array
`c[i] = (value >> (8*i)) & 0xFF` for `i = 0 .. sizeof(uint64_t)-1`. -/
def randChars (value : Nat) : List Int :=
  (List.range 8).foldl
    (fun c i => c.set i (toI8 (((value >>> (8 * i)) &&& 0xFF : Nat) : Int)))
    (List.replicate 8 0)

/-- The function `L3AuthenticationParameterRAND::getRandToA3A8`: the content of
the member buffer `rand` that it returns. The local arrays start zero-filled;
every cell is overwritten before it is read. -/
def L3AuthenticationParameterRAND.getRandToA3A8
    (self : L3AuthenticationParameterRAND) : List Nat :=
  let mRandCharLow := randChars self.mRANDLow
  let mRandCharHigh := randChars self.mRANDHigh
  let newRand : List Nat :=
    (List.range 8).foldl
      (fun a i => (a.set i (toU8 (mRandCharLow.getD i 0))).set (i + 8)
        (toU8 (mRandCharHigh.getD i 0)))
      (List.replicate 16 0)
  -- for (int i=15; i>=0; --i) rand[15-i]=newRand[i];
  (List.range 16).reverse.foldl
    (fun r i => r.set (15 - i) (newRand.getD i 0)) self.rand

/-- Little-endian bytes of a 64-bit half: `byte[i] = (value >> 8*i) & 0xFF`. -/
def leBytes (value : Nat) : List Nat :=
  (List.range 8).map (fun i => (value >>> (8 * i)) &&& 0xFF)

/-! ## The bit frame -/

/-- Modelled from the spec: the bit frame of section 4.1 (`BitVector` and its
subclass `L3Frame`, whose code is not in the source file) is an ordered
bit-addressable buffer; here the list of its bits, first bit first. -/
abbrev BitVector := List Bool

/-- Modelled from the spec: `L3Frame`, the bit frame an element is written to
or parsed from (section 4.1; the class is not in the source file). -/
abbrev L3Frame := BitVector

/-- The failure of a read past the end of a frame. -/
inductive FrameError where
  | outOfRange
deriving Repr, DecidableEq

deriving instance DecidableEq for Except

/-- Modelled from the spec: the storage effect of `writeField` (section 4.1),
which "writes the low `width` bits of `value` starting at `cursor`,
most-significant-bit-first". The spec gives no behaviour for a field that does
not fit in the buffer; the model keeps the buffer's length and drops the bits
that fall past its end. -/
def fillField : BitVector → Nat → Nat → Nat → BitVector
  | [], _, _, _ => []
  | b :: bs, 0, _, 0 => b :: bs
  | _ :: bs, 0, value, length + 1 => value.testBit length :: fillField bs 0 value length
  | b :: bs, writeIndex + 1, value, length => b :: fillField bs writeIndex value length

/-- Modelled from the spec: `writeField(cursor, value, width)` of section 4.1;
it returns the buffer and the advanced cursor. -/
def writeField (bits : BitVector) (wp value length : Nat) : BitVector × Nat :=
  (fillField bits wp value length, wp + length)

/-- Modelled from the spec: the storage effect of `writeFieldReversed`, which
writes a field "using reversed bit order" (section 4.2): the least significant
bit of `value` comes first. Bits that fall past the end are dropped. -/
def fillFieldReversed : BitVector → Nat → Nat → Nat → BitVector
  | [], _, _, _ => []
  | b :: bs, 0, _, 0 => b :: bs
  | _ :: bs, 0, value, length + 1 =>
      value.testBit 0 :: fillFieldReversed bs 0 (value / 2) length
  | b :: bs, writeIndex + 1, value, length => b :: fillFieldReversed bs writeIndex value length

/-- Modelled from the spec: `writeFieldReversed(cursor, value, width)`, the
reversed-bit-order write of section 4.2, advancing the cursor by `width`. -/
def writeFieldReversed (bits : BitVector) (wp value length : Nat) : BitVector × Nat :=
  (fillFieldReversed bits wp value length, wp + length)

/-- Modelled from the spec: the value of the `length` bits starting at
`readIndex`, "interpreted most-significant-bit-first" (section 4.1). -/
def peekField (bits : BitVector) (readIndex : Nat) : Nat → Nat
  | 0 => 0
  | length + 1 =>
      2 * peekField bits readIndex length + (bits.getD (readIndex + length) false).toNat

/-- Modelled from the spec: `readField(cursor, width)` of section 4.1: it
"fails (out-of-range) if fewer than `width` bits remain", and otherwise
returns the value and the advanced cursor. -/
def readField (bits : BitVector) (rp length : Nat) : Except FrameError (Nat × Nat) :=
  if rp + length ≤ bits.length then .ok (peekField bits rp length, rp + length)
  else .error FrameError.outOfRange

/-- Modelled from the spec: `segment(cursor, length)` of section 4.1, the
`length` bits of the buffer starting at `cursor`. The sharing of storage with
the parent is rendered by `putSegment`, which stores the segment back. -/
def segment (bits : BitVector) (start span : Nat) : BitVector :=
  (bits.drop start).take span

/-- Modelled from the spec: the effect on the parent frame of the writes made
through a segment that shares its storage (section 4.1): the segment's final
content replaces the bits of the parent from `start` on. -/
def putSegment (bits : BitVector) (start : Nat) (seg : BitVector) : BitVector :=
  bits.take start ++ seg ++ bits.drop (start + seg.length)

/-- Modelled from the spec: `LSB8MSB`, the operation that "reinterprets a
buffer's bit order within byte boundaries" (section 4.1): the bits of every
complete byte are reversed. -/
def LSB8MSB : BitVector → BitVector
  | b0 :: b1 :: b2 :: b3 :: b4 :: b5 :: b6 :: b7 :: rest =>
      b7 :: b6 :: b5 :: b4 :: b3 :: b2 :: b1 :: b0 :: LSB8MSB rest
  | bits => bits

/-- A run of `writeField` calls, each given as (value, width), at an advancing
cursor. -/
def writeFields (dest : L3Frame) (wp : Nat) (calls : List (Nat × Nat)) : L3Frame × Nat :=
  calls.foldl (fun s c => writeField s.1 s.2 c.1 c.2) (dest, wp)

/-! ## L3CMServiceType, L3RejectCause, L3AuthenticationParameterSRES -/

/-- The element `L3CMServiceType`; `mType` holds the numeric `TypeCode`. -/
structure L3CMServiceType where
  mType : Nat
deriving Repr, DecidableEq

/-- The function `L3CMServiceType::parseV`. -/
def L3CMServiceType.parseV (_self : L3CMServiceType) (src : L3Frame) (rp : Nat) :
    Except FrameError (L3CMServiceType × Nat) := do
  let r ← readField src rp 4
  pure ({ mType := r.1 }, r.2)

/-- The element `L3RejectCause`. -/
structure L3RejectCause where
  mRejectCause : Nat
deriving Repr, DecidableEq

/-- The function `L3RejectCause::writeV`. -/
def L3RejectCause.writeV (self : L3RejectCause) (dest : L3Frame) (wp : Nat) : L3Frame × Nat :=
  writeField dest wp self.mRejectCause 8

/-- The element `L3AuthenticationParameterSRES`. -/
structure L3AuthenticationParameterSRES where
  mSRES : Nat
deriving Repr, DecidableEq

/-- The function `L3AuthenticationParameterSRES::parseV`. -/
def L3AuthenticationParameterSRES.parseV (_self : L3AuthenticationParameterSRES)
    (src : L3Frame) (rp : Nat) : Except FrameError (L3AuthenticationParameterSRES × Nat) := do
  let r ← readField src rp 32
  pure ({ mSRES := r.1 }, r.2)

/-- The function `L3AuthenticationParameterRAND::writeV`. -/
def L3AuthenticationParameterRAND.writeV (self : L3AuthenticationParameterRAND)
    (dest : L3Frame) (wp : Nat) : L3Frame × Nat :=
  let s := writeField dest wp self.mRANDHigh 64
  writeField s.1 s.2 self.mRANDLow 64

/-! ## L3NetworkName -/

/-- The alphabets of a network name (`GSMAlphabet`, declared outside the
source file): the 7-bit default alphabet and the 16-bit one. -/
inductive GSMAlphabet where
  | ALPHABET_7BIT
  | ALPHABET_UCS2
deriving Repr, DecidableEq

/-- The element `L3NetworkName`: `mName` holds the `char` values of the C
string up to its terminating NUL, `mCI` the country-initials bit value. -/
structure L3NetworkName where
  mAlphabet : GSMAlphabet
  mName : List Int
  mCI : Nat
deriving Repr, DecidableEq

/-- The value `numSpareBits = (8-(sz*7)%8)%8` of `L3NetworkName::writeV`, in
32-bit `unsigned` arithmetic. -/
def numSpareBits (sz : Nat) : Nat := (8 - (sz * 7 % 4294967296) % 8) % 8

/-- The function `L3NetworkName::writeV`. The alphabet table `encodeGSMChar`,
defined outside the source file, is a parameter. `sz` is `strlen(mName)` as a
32-bit `unsigned`. -/
def L3NetworkName.writeV (encodeGSMChar : Int → Int) (self : L3NetworkName)
    (dest : L3Frame) (wp : Nat) : L3Frame × Nat :=
  let sz : Nat := self.mName.length % 4294967296
  if self.mAlphabet = GSMAlphabet.ALPHABET_UCS2 then
    -- header byte
    let s0 := writeField dest wp ((0x1 <<< 7) ||| (0x1 <<< 4) ||| (self.mCI <<< 3) ||| 0) 8
    -- the characters
    (self.mName.take sz).foldl (fun s c => writeField s.1 s.2 (toU64 c) 16) s0
  else
    let s0 := writeField dest wp
      ((0x1 <<< 7) ||| (0x0 <<< 4) ||| (self.mCI <<< 3) ||| numSpareBits sz) 8
    let chars := segment s0.1 s0.2 ((sz * 7 % 4294967296 + numSpareBits sz) % 4294967296)
    let s1 := (self.mName.take sz).foldl
      (fun s c => writeFieldReversed s.1 s.2 (toU64 (encodeGSMChar c)) 7) (chars, 0)
    let s2 := writeField s1.1 s1.2 0 (numSpareBits sz)
    (putSegment s0.1 s0.2 (LSB8MSB s2.1), s0.2 + s2.2)

/-! ## L3TimeZoneAndTime -/

/-- The fields of the C library's `struct tm` that the element uses. -/
structure Tm where
  tm_sec : Int
  tm_min : Int
  tm_hour : Int
  tm_mday : Int
  tm_mon : Int
  tm_year : Int
  tm_gmtoff : Int
deriving Repr, DecidableEq

/-- The class `Timeval` as the element uses it: seconds and microseconds. -/
structure Timeval where
  sec : Int
  usec : Int
deriving Repr, DecidableEq

/-- The time kinds of `L3TimeZoneAndTime` (declared outside the source file). -/
inductive TimeType where
  | LOCAL_TIME
  | UTC_TIME
deriving Repr, DecidableEq

/-- The element `L3TimeZoneAndTime`. -/
structure L3TimeZoneAndTime where
  mTime : Timeval
  mType : TimeType
deriving Repr, DecidableEq

/-- The local `struct tm fields` of `L3TimeZoneAndTime::writeV`: the local
breakdown of `mTime.sec()` for `LOCAL_TIME`, the universal one otherwise. The
C library calls `localtime_r` and `gmtime_r` are parameters. -/
def L3TimeZoneAndTime.fields (localtime_r gmtime_r : Int → Tm)
    (self : L3TimeZoneAndTime) : Tm :=
  if self.mType = TimeType.LOCAL_TIME then localtime_r self.mTime.sec
  else gmtime_r self.mTime.sec

/-- The zone offset in seconds that `L3TimeZoneAndTime::writeV` stores in its
local `int zone`: `tm_gmtoff` of `fields` for `LOCAL_TIME`, and of a second,
local breakdown otherwise. -/
def L3TimeZoneAndTime.zoneSeconds (localtime_r gmtime_r : Int → Tm)
    (self : L3TimeZoneAndTime) : Int :=
  if self.mType = TimeType.LOCAL_TIME then
    toI32 (self.fields localtime_r gmtime_r).tm_gmtoff
  else toI32 (localtime_r self.mTime.sec).tm_gmtoff

/-- The `writeField` calls of `L3TimeZoneAndTime::writeV`, in source order,
each as (value, width). -/
def L3TimeZoneAndTime.writeVCalls (localtime_r gmtime_r : Int → Tm)
    (self : L3TimeZoneAndTime) : List (Nat × Nat) :=
  let fields := self.fields localtime_r gmtime_r
  let year : Nat := toU32 (Int.tmod fields.tm_year 100)
  let month : Nat := toU32 (fields.tm_mon + 1)
  -- time zone, in 1/4 steps with a sign bit
  let zone : Int := Int.tdiv (self.zoneSeconds localtime_r gmtime_r) (15 * 60)
  let zoneSign : Nat := if zone < 0 then 1 else 0
  let zone : Int := zone.natAbs
  [ (year % 10, 4), (year / 10, 4),
    (month % 10, 4), (month / 10, 4),
    (toU64 (Int.tmod fields.tm_mday 10), 4), (toU64 (Int.tdiv fields.tm_mday 10), 4),
    (toU64 (Int.tmod fields.tm_hour 10), 4), (toU64 (Int.tdiv fields.tm_hour 10), 4),
    (toU64 (Int.tmod fields.tm_min 10), 4), (toU64 (Int.tdiv fields.tm_min 10), 4),
    (toU64 (Int.tmod fields.tm_sec 10), 4), (toU64 (Int.tdiv fields.tm_sec 10), 4),
    (zoneSign, 1),
    (toU64 (Int.tmod zone 10), 3),
    (toU64 (Int.tdiv zone 10), 4) ]

/-- The function `L3TimeZoneAndTime::writeV`: its `writeField` calls applied to
the frame in order. -/
def L3TimeZoneAndTime.writeV (localtime_r gmtime_r : Int → Tm) (self : L3TimeZoneAndTime)
    (dest : L3Frame) (wp : Nat) : L3Frame × Nat :=
  writeFields dest wp (self.writeVCalls localtime_r gmtime_r)

/-- The local `struct tm fields` that `L3TimeZoneAndTime::parseV` fills before
it calls `timegm`, with the advanced read cursor. The two reads of a sum are
made left to right, as written. `unsigned` is 32 bits wide and `long`
(`tm_gmtoff`) 64 bits. -/
def L3TimeZoneAndTime.parseFields (src : L3Frame) (rp : Nat) : Except FrameError (Tm × Nat) := do
  -- year
  let y0 ← readField src rp 4
  let y1 ← readField src y0.2 4
  -- month
  let m0 ← readField src y1.2 4
  let m1 ← readField src m0.2 4
  -- day
  let d0 ← readField src m1.2 4
  let d1 ← readField src d0.2 4
  -- hour
  let h0 ← readField src d1.2 4
  let h1 ← readField src h0.2 4
  -- minute
  let mi0 ← readField src h1.2 4
  let mi1 ← readField src mi0.2 4
  -- second
  let s0 ← readField src mi1.2 4
  let s1 ← readField src s0.2 4
  -- zone
  let zoneSign ← readField src s1.2 1
  let z0 ← readField src zoneSign.2 3
  let z1 ← readField src z0.2 4
  let zone : Nat := toU32 ((z0.1 : Int) + (z1.1 : Int))
  let zone : Nat := if toU32 zoneSign.1 ≠ 0 then toU32 (-(zone : Int)) else zone
  pure ({ tm_year := toI32 (2000 + (y0.1 : Int) + (y1.1 : Int) * 10)
          tm_mon := toI32 (1 + (m0.1 : Int) + (m1.1 : Int) * 10)
          tm_mday := toI32 ((d0.1 : Int) + (d1.1 : Int) * 10)
          tm_hour := toI32 ((h0.1 : Int) + (h1.1 : Int) * 10)
          tm_min := toI32 ((mi0.1 : Int) + (mi1.1 : Int) * 10)
          tm_sec := toI32 ((s0.1 : Int) + (s1.1 : Int) * 10)
          tm_gmtoff := ((zone * 15 * 60 % 4294967296 : Nat) : Int) }, z1.2)

/-- The function `L3TimeZoneAndTime::parseV`: it stores
`Timeval(timegm(&fields),0)`. The C library call `timegm` is a parameter. -/
def L3TimeZoneAndTime.parseV (timegm : Tm → Int) (self : L3TimeZoneAndTime)
    (src : L3Frame) (rp : Nat) : Except FrameError (L3TimeZoneAndTime × Nat) := do
  let r ← L3TimeZoneAndTime.parseFields src rp
  pure ({ self with mTime := { sec := timegm r.1, usec := 0 } }, r.2)

/-! ## Runs of reads, and the element a caller holds after a parse -/

/-- A run of `readField` calls of the given widths at an advancing cursor: the
values read, in order, and the final cursor. The first read that fails ends
the run with its error. -/
def readFields (src : L3Frame) (rp : Nat) : List Nat → Except FrameError (List Nat × Nat)
  | [] => .ok ([], rp)
  | w :: ws =>
    match readField src rp w with
    | .error e => .error e
    | .ok r =>
      match readFields src r.2 ws with
      | .error e => .error e
      | .ok rest => .ok (r.1 :: rest.1, rest.2)

/-- The widths of the `readField` calls of `L3TimeZoneAndTime::parseV`, in
source order: twelve nibbles, then the sign bit and the two zone digits. -/
def L3TimeZoneAndTime.parseVWidths : List Nat := [4, 4, 4, 4, 4, 4, 4, 4, 4, 4, 4, 4, 1, 3, 4]

/-- The `struct tm fields` that `L3TimeZoneAndTime::parseV` computes from the
fifteen values it has read, numbered in reading order. -/
def L3TimeZoneAndTime.fieldsOfReads (v : List Nat) : Tm :=
  let zoneSign : Nat := v.getD 12 0
  let zone : Nat := toU32 ((v.getD 13 0 : Int) + (v.getD 14 0 : Int))
  let zone : Nat := if toU32 zoneSign ≠ 0 then toU32 (-(zone : Int)) else zone
  { tm_year := toI32 (2000 + (v.getD 0 0 : Int) + (v.getD 1 0 : Int) * 10)
    tm_mon := toI32 (1 + (v.getD 2 0 : Int) + (v.getD 3 0 : Int) * 10)
    tm_mday := toI32 ((v.getD 4 0 : Int) + (v.getD 5 0 : Int) * 10)
    tm_hour := toI32 ((v.getD 6 0 : Int) + (v.getD 7 0 : Int) * 10)
    tm_min := toI32 ((v.getD 8 0 : Int) + (v.getD 9 0 : Int) * 10)
    tm_sec := toI32 ((v.getD 10 0 : Int) + (v.getD 11 0 : Int) * 10)
    tm_gmtoff := ((zone * 15 * 60 % 4294967296 : Nat) : Int) }

/-- The values that a successful run of reads of the given widths returns: the
fields of the frame at the successive cursor positions. -/
def peekFields (src : L3Frame) (rp : Nat) : List Nat → List Nat
  | [] => []
  | w :: ws => peekField src rp w :: peekFields src (rp + w) ws

/-! ## Bytes of a frame and of a number -/

/-- The `count` bytes obtained by packing the bits of a frame eight at a time
from `start` on, each byte most-significant-bit-first. -/
def frameBytes (bits : BitVector) (start count : Nat) : List Nat :=
  (List.range count).map (fun k => peekField bits (start + 8 * k) 8)

/-- The sixteen big-endian bytes of a 128-bit number. -/
def beBytes16 (n : Nat) : List Nat :=
  (List.range 16).map (fun k => (n >>> (8 * (15 - k))) &&& 0xFF)

/-! ## Septet packing -/

/-- The number `sum over i of c_i * 2^(7*i)` of a sequence of 7-bit codes: the
standard packing of septets, first code in the lowest bits. -/
def septetSum (codes : List Nat) : Nat :=
  ((List.range codes.length).map (fun i => codes.getD i 0 * 2 ^ (7 * i))).sum

/-- The packing of septets by recursion on the sequence: the first code in
the low seven bits, the packing of the others above it. -/
def packSeptets : List Nat → Nat
  | [] => 0
  | c :: cs => c + 128 * packSeptets cs

/-- Bit `j` of the stream of 7-bit codes taken least significant bit first:
bit `j mod 7` of code number `j / 7`, and false behind the last code. -/
def septetBit (codes : List Nat) (j : Nat) : Bool :=
  (codes.getD (j / 7) 0).testBit (j % 7)

/-! ## The `parseV` bodies as runs of steps on the element and the cursor -/

/-- A step of a `parseV` body, run on the element and the read cursor as they
are when the step starts: it gives the element and the cursor as the step
leaves them and either a value or the failure that ends the call. A failure
is propagated to the caller (spec section 7) and undoes nothing: the element
and the cursor stay as the steps before it made them. -/
def ParseStep (σ β : Type) : Type := σ × Nat → Except FrameError β × (σ × Nat)

/-- One step followed by the steps that use its value; a failure of the first
step ends the run with the element and cursor reached. -/
def ParseStep.andThen {σ β γ : Type} (m : ParseStep σ β) (f : β → ParseStep σ γ) :
    ParseStep σ γ :=
  fun s =>
    match m s with
    | (.ok b, s') => f b s'
    | (.error e, s') => (.error e, s')

/-- The step `src.readField(rp, length)`: the value read, with the cursor
advanced; a failed read leaves element and cursor as they are. -/
def readStep {σ : Type} (src : L3Frame) (length : Nat) : ParseStep σ Nat :=
  fun s =>
    match readField src s.2 length with
    | .ok r => (.ok r.1, (s.1, r.2))
    | .error e => (.error e, s)

/-- An assignment to a member of the element. -/
def storeStep {σ : Type} (f : σ → σ) : ParseStep σ Unit :=
  fun s => (.ok (), (f s.1, s.2))

/-- The body of `L3CMServiceType::parseV`, `mType = (TypeCode)src.readField(rp,4)`:
the read, then the assignment. -/
def L3CMServiceType.parseVSteps (src : L3Frame) : ParseStep L3CMServiceType Unit :=
  (readStep src 4).andThen fun v =>
  storeStep fun _ => { mType := v }

/-- The body of `L3AuthenticationParameterSRES::parseV`,
`mSRES = src.readField(rp,32)`: the read, then the assignment. -/
def L3AuthenticationParameterSRES.parseVSteps (src : L3Frame) :
    ParseStep L3AuthenticationParameterSRES Unit :=
  (readStep src 32).andThen fun v =>
  storeStep fun _ => { mSRES := v }

/-- The body of `L3TimeZoneAndTime::parseV`: the fifteen reads in source
order, which fill the local `struct tm fields`, then the one assignment
`mTime = Timeval(timegm(&fields),0)`. -/
def L3TimeZoneAndTime.parseVSteps (timegm : Tm → Int) (src : L3Frame) :
    ParseStep L3TimeZoneAndTime Unit :=
  -- year
  (readStep src 4).andThen fun y0 =>
  (readStep src 4).andThen fun y1 =>
  -- month
  (readStep src 4).andThen fun m0 =>
  (readStep src 4).andThen fun m1 =>
  -- day
  (readStep src 4).andThen fun d0 =>
  (readStep src 4).andThen fun d1 =>
  -- hour
  (readStep src 4).andThen fun h0 =>
  (readStep src 4).andThen fun h1 =>
  -- minute
  (readStep src 4).andThen fun mi0 =>
  (readStep src 4).andThen fun mi1 =>
  -- second
  (readStep src 4).andThen fun s0 =>
  (readStep src 4).andThen fun s1 =>
  -- zone
  (readStep src 1).andThen fun zoneSign =>
  (readStep src 3).andThen fun z0 =>
  (readStep src 4).andThen fun z1 =>
  -- convert
  storeStep fun self =>
    { self with
      mTime := { sec := timegm (L3TimeZoneAndTime.fieldsOfReads
                    [y0, y1, m0, m1, d0, d1, h0, h1, mi0, mi1, s0, s1, zoneSign, z0, z1])
                 usec := 0 } }

/-! ## Theorems -/

theorem toU8_toI8_and (x : Nat) : toU8 (toI8 ((x &&& 0xFF : Nat) : Int)) = x &&& 0xFF := by
  have h : x &&& 0xFF < 256 := by
    have := Nat.and_lt_two_pow x (show 0xFF < 2 ^ 8 by norm_num)
    simpa using this
  generalize x &&& 0xFF = b at h
  unfold toU8 toI8
  omega

theorem length_sixteen (l : List Nat) (h : l.length = 16) :
    ∃ a0 a1 a2 a3 a4 a5 a6 a7 a8 a9 b0 b1 b2 b3 b4 b5,
      l = [a0, a1, a2, a3, a4, a5, a6, a7, a8, a9, b0, b1, b2, b3, b4, b5] := by
  match l, h with
  | [a0, a1, a2, a3, a4, a5, a6, a7, a8, a9, b0, b1, b2, b3, b4, b5], _ =>
    exact ⟨a0, a1, a2, a3, a4, a5, a6, a7, a8, a9, b0, b1, b2, b3, b4, b5, rfl⟩

/-- C1: for every pair of 64-bit halves, the buffer exported by
`getRandToA3A8` is the reversal of the 16 bytes made of the little-endian
bytes of the low half followed by the little-endian bytes of the high half; at
hi = 0x0102030405060708, lo = 0x090A0B0C0D0E0F10 the buffer is 01 02 .. 0F 10
and its first byte is the most significant byte of hi. -/
theorem getRandToA3A8_reversed (self : L3AuthenticationParameterRAND)
    (h : self.rand.length = 16) :
    self.getRandToA3A8 = (leBytes self.mRANDLow ++ leBytes self.mRANDHigh).reverse ∧
    (L3AuthenticationParameterRAND.mk 0x0102030405060708 0x090A0B0C0D0E0F10
        (List.replicate 16 0)).getRandToA3A8
      = [1, 2, 3, 4, 5, 6, 7, 8, 9, 10, 11, 12, 13, 14, 15, 16] ∧
    (L3AuthenticationParameterRAND.mk 0x0102030405060708 0x090A0B0C0D0E0F10
        (List.replicate 16 0)).getRandToA3A8.head? = some (0x0102030405060708 >>> 56) := by
  refine ⟨?_, by decide, by decide⟩
  obtain ⟨a0, a1, a2, a3, a4, a5, a6, a7, a8, a9, b0, b1, b2, b3, b4, b5, hr⟩ :=
    length_sixteen self.rand h
  simp [L3AuthenticationParameterRAND.getRandToA3A8, randChars, leBytes, hr, List.range,
    List.range.loop, toU8_toI8_and]

/-- Witness of C1 at the halves of the example. -/
theorem getRandToA3A8_reversed_witness :
    (L3AuthenticationParameterRAND.mk 0x0102030405060708 0x090A0B0C0D0E0F10
        (List.replicate 16 0)).getRandToA3A8
      = (leBytes 0x090A0B0C0D0E0F10 ++ leBytes 0x0102030405060708).reverse :=
  (getRandToA3A8_reversed
    (L3AuthenticationParameterRAND.mk 0x0102030405060708 0x090A0B0C0D0E0F10
      (List.replicate 16 0)) (by decide)).1



theorem fillField_length (bits : BitVector) (wp v len : Nat) :
    (fillField bits wp v len).length = bits.length := by
  induction bits generalizing wp len with
  | nil => simp [fillField]
  | cons b bs ih =>
    cases wp with
    | zero => cases len with
      | zero => simp [fillField]
      | succ n => simp [fillField, ih]
    | succ w => simp [fillField, ih]

theorem fillField_getD (bits : BitVector) (wp v len i : Nat) :
    (fillField bits wp v len).getD i false =
      if wp ≤ i ∧ i < wp + len ∧ i < bits.length then v.testBit (wp + len - 1 - i)
      else bits.getD i false := by
  induction bits generalizing wp len i with
  | nil => simp [fillField]
  | cons b bs ih =>
    cases wp with
    | zero =>
      cases len with
      | zero => simp [fillField]
      | succ n =>
        cases i with
        | zero => simp [fillField]
        | succ j =>
          simp only [fillField, List.getD_cons_succ, ih, List.length_cons]
          by_cases h : j < 0 + n ∧ j < bs.length
          · have h1 : 0 ≤ j ∧ j < 0 + n ∧ j < bs.length := ⟨Nat.zero_le _, h.1, h.2⟩
            have h2 : 0 ≤ j + 1 ∧ j + 1 < 0 + (n + 1) ∧ j + 1 < bs.length + 1 :=
              ⟨Nat.zero_le _, by omega, by omega⟩
            rw [if_pos h1, if_pos h2]
            congr 1
            omega
          · have h1 : ¬ (0 ≤ j ∧ j < 0 + n ∧ j < bs.length) := fun hh => h ⟨hh.2.1, hh.2.2⟩
            have h2 : ¬ (0 ≤ j + 1 ∧ j + 1 < 0 + (n + 1) ∧ j + 1 < bs.length + 1) :=
              fun hh => h ⟨by omega, by omega⟩
            rw [if_neg h1, if_neg h2]
    | succ w =>
      cases i with
      | zero => simp [fillField]
      | succ j =>
        simp only [fillField, List.getD_cons_succ, ih, List.length_cons]
        by_cases h : w ≤ j ∧ j < w + len ∧ j < bs.length
        · have h2 : w + 1 ≤ j + 1 ∧ j + 1 < w + 1 + len ∧ j + 1 < bs.length + 1 :=
            ⟨by omega, by omega, by omega⟩
          rw [if_pos h, if_pos h2]
          congr 1
          omega
        · have h2 : ¬ (w + 1 ≤ j + 1 ∧ j + 1 < w + 1 + len ∧ j + 1 < bs.length + 1) :=
            fun hh => h ⟨by omega, by omega, by omega⟩
          rw [if_neg h, if_neg h2]

theorem peekField_congr (a b : BitVector) (rp rp' len : Nat)
    (h : ∀ i, i < len → a.getD (rp + i) false = b.getD (rp' + i) false) :
    peekField a rp len = peekField b rp' len := by
  induction len with
  | zero => rfl
  | succ n ih =>
    simp only [peekField]
    rw [ih (fun i hi => h i (by omega)), h n (by omega)]

theorem peekField_testBit (bits : BitVector) (rp v len : Nat)
    (h : ∀ i, i < len → bits.getD (rp + i) false = v.testBit (len - 1 - i)) :
    peekField bits rp len = v % 2 ^ len := by
  induction len generalizing v with
  | zero => simp [peekField, Nat.mod_one]
  | succ n ih =>
    simp only [peekField]
    have h1 : peekField bits rp n = (v / 2) % 2 ^ n := by
      apply ih
      intro i hi
      rw [h i (by omega), Nat.testBit_div_two]
      congr 1
      omega
    have h2 : bits.getD (rp + n) false = v.testBit 0 := by
      rw [h n (by omega)]
      congr 1
      omega
    rw [h1, h2, Nat.toNat_testBit, pow_zero, Nat.div_one, pow_succ, Nat.mul_comm (2 ^ n) 2,
      Nat.mod_mul]
    omega

theorem peekField_fillField (bits : BitVector) (wp v len : Nat) (h : wp + len ≤ bits.length) :
    peekField (fillField bits wp v len) wp len = v % 2 ^ len := by
  apply peekField_testBit
  intro i hi
  rw [fillField_getD, if_pos ⟨by omega, by omega, by omega⟩]
  congr 1
  omega

theorem writeFields_nil (dest : L3Frame) (wp : Nat) : writeFields dest wp [] = (dest, wp) := rfl

theorem writeFields_cons (dest : L3Frame) (wp : Nat) (c : Nat × Nat) (cs : List (Nat × Nat)) :
    writeFields dest wp (c :: cs) = writeFields (fillField dest wp c.1 c.2) (wp + c.2) cs := rfl

theorem writeFields_cursor (dest : L3Frame) (wp : Nat) (calls : List (Nat × Nat)) :
    (writeFields dest wp calls).2 = wp + (calls.map Prod.snd).sum := by
  induction calls generalizing dest wp with
  | nil => simp [writeFields_nil]
  | cons c cs ih => rw [writeFields_cons, ih]; simp; omega

theorem writeFields_length (dest : L3Frame) (wp : Nat) (calls : List (Nat × Nat)) :
    (writeFields dest wp calls).1.length = dest.length := by
  induction calls generalizing dest wp with
  | nil => simp [writeFields_nil]
  | cons c cs ih => rw [writeFields_cons, ih, fillField_length]

theorem writeFields_getD_lt (dest : L3Frame) (wp : Nat) (calls : List (Nat × Nat)) (i : Nat)
    (hi : i < wp) : (writeFields dest wp calls).1.getD i false = dest.getD i false := by
  induction calls generalizing dest wp with
  | nil => simp [writeFields_nil]
  | cons c cs ih =>
    rw [writeFields_cons, ih _ _ (by omega), fillField_getD, if_neg (by omega)]

theorem writeFields_peek (dest : L3Frame) (wp : Nat) (pre post : List (Nat × Nat)) (v w : Nat)
    (h : wp + (pre.map Prod.snd).sum + w ≤ dest.length) :
    peekField (writeFields dest wp (pre ++ (v, w) :: post)).1 (wp + (pre.map Prod.snd).sum) w
      = v % 2 ^ w := by
  induction pre generalizing dest wp with
  | nil =>
    simp only [List.nil_append, List.map_nil, List.sum_nil, Nat.add_zero, writeFields_cons]
    rw [← peekField_fillField dest wp v w (by simpa using h)]
    apply peekField_congr
    intro i hi
    exact writeFields_getD_lt _ _ _ _ (by omega)
  | cons c cs ih =>
    simp only [List.cons_append, writeFields_cons, List.map_cons, List.sum_cons]
    have := ih (fillField dest wp c.1 c.2) (wp + c.2)
      (by rw [fillField_length]; simp only [List.map_cons, List.sum_cons] at h; omega)
    rw [← this]
    congr 1
    omega

theorem readField_ok (bits : BitVector) (rp len : Nat) (h : rp + len ≤ bits.length) :
    readField bits rp len = .ok (peekField bits rp len, rp + len) := by
  simp [readField, h]

theorem parseFields_writeFields (dest : L3Frame) (wp : Nat)
    (v0 v1 v2 v3 v4 v5 v6 v7 v8 v9 v10 v11 s z0 z1 : Nat) (h : wp + 56 ≤ dest.length) :
    L3TimeZoneAndTime.parseFields
      (writeFields dest wp [(v0, 4), (v1, 4), (v2, 4), (v3, 4), (v4, 4), (v5, 4), (v6, 4),
        (v7, 4), (v8, 4), (v9, 4), (v10, 4), (v11, 4), (s, 1), (z0, 3), (z1, 4)]).1 wp
    = .ok ({ tm_year := toI32 (2000 + ((v0 % 16 : Nat) : Int) + ((v1 % 16 : Nat) : Int) * 10)
             tm_mon := toI32 (1 + ((v2 % 16 : Nat) : Int) + ((v3 % 16 : Nat) : Int) * 10)
             tm_mday := toI32 (((v4 % 16 : Nat) : Int) + ((v5 % 16 : Nat) : Int) * 10)
             tm_hour := toI32 (((v6 % 16 : Nat) : Int) + ((v7 % 16 : Nat) : Int) * 10)
             tm_min := toI32 (((v8 % 16 : Nat) : Int) + ((v9 % 16 : Nat) : Int) * 10)
             tm_sec := toI32 (((v10 % 16 : Nat) : Int) + ((v11 % 16 : Nat) : Int) * 10)
             tm_gmtoff :=
              (((if toU32 ((s % 2 : Nat) : Int) ≠ 0
                  then toU32 (-((toU32 (((z0 % 8 : Nat) : Int) + ((z1 % 16 : Nat) : Int)) : Nat) : Int))
                  else toU32 (((z0 % 8 : Nat) : Int) + ((z1 % 16 : Nat) : Int)))
                * 15 * 60 % 4294967296 : Nat) : Int) }, wp + 56) := by
  generalize hout : writeFields dest wp [(v0, 4), (v1, 4), (v2, 4), (v3, 4), (v4, 4), (v5, 4),
    (v6, 4), (v7, 4), (v8, 4), (v9, 4), (v10, 4), (v11, 4), (s, 1), (z0, 3), (z1, 4)] = out
  have hlen : out.1.length = dest.length := by rw [← hout, writeFields_length]
  have p0 : peekField out.1 wp 4 = v0 % 16 := by
    have := writeFields_peek dest wp [] [(v1, 4), (v2, 4), (v3, 4), (v4, 4), (v5, 4),
      (v6, 4), (v7, 4), (v8, 4), (v9, 4), (v10, 4), (v11, 4), (s, 1), (z0, 3), (z1, 4)] v0 4
      (by simp; omega)
    simpa [hout] using this
  have p1 : peekField out.1 (wp + 4) 4 = v1 % 16 := by
    have := writeFields_peek dest wp [(v0, 4)] [(v2, 4), (v3, 4), (v4, 4), (v5, 4),
      (v6, 4), (v7, 4), (v8, 4), (v9, 4), (v10, 4), (v11, 4), (s, 1), (z0, 3), (z1, 4)] v1 4
      (by simp; omega)
    simpa [hout] using this
  have p2 : peekField out.1 (wp + 8) 4 = v2 % 16 := by
    have := writeFields_peek dest wp [(v0, 4), (v1, 4)] [(v3, 4), (v4, 4), (v5, 4),
      (v6, 4), (v7, 4), (v8, 4), (v9, 4), (v10, 4), (v11, 4), (s, 1), (z0, 3), (z1, 4)] v2 4
      (by simp; omega)
    simpa [hout] using this
  have p3 : peekField out.1 (wp + 12) 4 = v3 % 16 := by
    have := writeFields_peek dest wp [(v0, 4), (v1, 4), (v2, 4)] [(v4, 4), (v5, 4),
      (v6, 4), (v7, 4), (v8, 4), (v9, 4), (v10, 4), (v11, 4), (s, 1), (z0, 3), (z1, 4)] v3 4
      (by simp; omega)
    simpa [hout] using this
  have p4 : peekField out.1 (wp + 16) 4 = v4 % 16 := by
    have := writeFields_peek dest wp [(v0, 4), (v1, 4), (v2, 4), (v3, 4)] [(v5, 4),
      (v6, 4), (v7, 4), (v8, 4), (v9, 4), (v10, 4), (v11, 4), (s, 1), (z0, 3), (z1, 4)] v4 4
      (by simp; omega)
    simpa [hout] using this
  have p5 : peekField out.1 (wp + 20) 4 = v5 % 16 := by
    have := writeFields_peek dest wp [(v0, 4), (v1, 4), (v2, 4), (v3, 4), (v4, 4)]
      [(v6, 4), (v7, 4), (v8, 4), (v9, 4), (v10, 4), (v11, 4), (s, 1), (z0, 3), (z1, 4)] v5 4
      (by simp; omega)
    simpa [hout] using this
  have p6 : peekField out.1 (wp + 24) 4 = v6 % 16 := by
    have := writeFields_peek dest wp [(v0, 4), (v1, 4), (v2, 4), (v3, 4), (v4, 4), (v5, 4)]
      [(v7, 4), (v8, 4), (v9, 4), (v10, 4), (v11, 4), (s, 1), (z0, 3), (z1, 4)] v6 4
      (by simp; omega)
    simpa [hout] using this
  have p7 : peekField out.1 (wp + 28) 4 = v7 % 16 := by
    have := writeFields_peek dest wp
      [(v0, 4), (v1, 4), (v2, 4), (v3, 4), (v4, 4), (v5, 4), (v6, 4)]
      [(v8, 4), (v9, 4), (v10, 4), (v11, 4), (s, 1), (z0, 3), (z1, 4)] v7 4
      (by simp; omega)
    simpa [hout] using this
  have p8 : peekField out.1 (wp + 32) 4 = v8 % 16 := by
    have := writeFields_peek dest wp
      [(v0, 4), (v1, 4), (v2, 4), (v3, 4), (v4, 4), (v5, 4), (v6, 4), (v7, 4)]
      [(v9, 4), (v10, 4), (v11, 4), (s, 1), (z0, 3), (z1, 4)] v8 4
      (by simp; omega)
    simpa [hout] using this
  have p9 : peekField out.1 (wp + 36) 4 = v9 % 16 := by
    have := writeFields_peek dest wp
      [(v0, 4), (v1, 4), (v2, 4), (v3, 4), (v4, 4), (v5, 4), (v6, 4), (v7, 4), (v8, 4)]
      [(v10, 4), (v11, 4), (s, 1), (z0, 3), (z1, 4)] v9 4
      (by simp; omega)
    simpa [hout] using this
  have p10 : peekField out.1 (wp + 40) 4 = v10 % 16 := by
    have := writeFields_peek dest wp
      [(v0, 4), (v1, 4), (v2, 4), (v3, 4), (v4, 4), (v5, 4), (v6, 4), (v7, 4), (v8, 4),
        (v9, 4)]
      [(v11, 4), (s, 1), (z0, 3), (z1, 4)] v10 4
      (by simp; omega)
    simpa [hout] using this
  have p11 : peekField out.1 (wp + 44) 4 = v11 % 16 := by
    have := writeFields_peek dest wp
      [(v0, 4), (v1, 4), (v2, 4), (v3, 4), (v4, 4), (v5, 4), (v6, 4), (v7, 4), (v8, 4),
        (v9, 4), (v10, 4)]
      [(s, 1), (z0, 3), (z1, 4)] v11 4
      (by simp; omega)
    simpa [hout] using this
  have p12 : peekField out.1 (wp + 48) 1 = s % 2 := by
    have := writeFields_peek dest wp
      [(v0, 4), (v1, 4), (v2, 4), (v3, 4), (v4, 4), (v5, 4), (v6, 4), (v7, 4), (v8, 4),
        (v9, 4), (v10, 4), (v11, 4)]
      [(z0, 3), (z1, 4)] s 1
      (by simp; omega)
    simpa [hout] using this
  have p13 : peekField out.1 (wp + 49) 3 = z0 % 8 := by
    have := writeFields_peek dest wp
      [(v0, 4), (v1, 4), (v2, 4), (v3, 4), (v4, 4), (v5, 4), (v6, 4), (v7, 4), (v8, 4),
        (v9, 4), (v10, 4), (v11, 4), (s, 1)]
      [(z1, 4)] z0 3
      (by simp; omega)
    simpa [hout] using this
  have p14 : peekField out.1 (wp + 52) 4 = z1 % 16 := by
    have := writeFields_peek dest wp
      [(v0, 4), (v1, 4), (v2, 4), (v3, 4), (v4, 4), (v5, 4), (v6, 4), (v7, 4), (v8, 4),
        (v9, 4), (v10, 4), (v11, 4), (s, 1), (z0, 3)]
      [] z1 4
      (by simp; omega)
    simpa [hout] using this
  have r0 : readField out.1 wp 4 = .ok (v0 % 16, wp + 4) := by
    rw [readField_ok _ _ _ (by omega), p0]
  have r1 : readField out.1 (wp + 4) 4 = .ok (v1 % 16, wp + 8) := by
    rw [readField_ok _ _ _ (by omega), p1]
  have r2 : readField out.1 (wp + 8) 4 = .ok (v2 % 16, wp + 12) := by
    rw [readField_ok _ _ _ (by omega), p2]
  have r3 : readField out.1 (wp + 12) 4 = .ok (v3 % 16, wp + 16) := by
    rw [readField_ok _ _ _ (by omega), p3]
  have r4 : readField out.1 (wp + 16) 4 = .ok (v4 % 16, wp + 20) := by
    rw [readField_ok _ _ _ (by omega), p4]
  have r5 : readField out.1 (wp + 20) 4 = .ok (v5 % 16, wp + 24) := by
    rw [readField_ok _ _ _ (by omega), p5]
  have r6 : readField out.1 (wp + 24) 4 = .ok (v6 % 16, wp + 28) := by
    rw [readField_ok _ _ _ (by omega), p6]
  have r7 : readField out.1 (wp + 28) 4 = .ok (v7 % 16, wp + 32) := by
    rw [readField_ok _ _ _ (by omega), p7]
  have r8 : readField out.1 (wp + 32) 4 = .ok (v8 % 16, wp + 36) := by
    rw [readField_ok _ _ _ (by omega), p8]
  have r9 : readField out.1 (wp + 36) 4 = .ok (v9 % 16, wp + 40) := by
    rw [readField_ok _ _ _ (by omega), p9]
  have r10 : readField out.1 (wp + 40) 4 = .ok (v10 % 16, wp + 44) := by
    rw [readField_ok _ _ _ (by omega), p10]
  have r11 : readField out.1 (wp + 44) 4 = .ok (v11 % 16, wp + 48) := by
    rw [readField_ok _ _ _ (by omega), p11]
  have r12 : readField out.1 (wp + 48) 1 = .ok (s % 2, wp + 49) := by
    rw [readField_ok _ _ _ (by omega), p12]
  have r13 : readField out.1 (wp + 49) 3 = .ok (z0 % 8, wp + 52) := by
    rw [readField_ok _ _ _ (by omega), p13]
  have r14 : readField out.1 (wp + 52) 4 = .ok (z1 % 16, wp + 56) := by
    rw [readField_ok _ _ _ (by omega), p14]
  simp only [L3TimeZoneAndTime.parseFields, bind, Except.bind, pure, Except.pure, r0, r1, r2, r3, r4, r5, r6, r7, r8, r9, r10, r11, r12, r13, r14]

theorem putSegment_getD_lt (bits seg : BitVector) (start i : Nat) (hi : i < start)
    (hs : start ≤ bits.length) :
    (putSegment bits start seg).getD i false = bits.getD i false := by
  unfold putSegment
  have h1 : i < (bits.take start).length := by simp; omega
  rw [List.getD_eq_getElem?_getD, List.getD_eq_getElem?_getD, List.append_assoc,
    List.getElem?_append_left h1, List.getElem?_take_of_lt hi]

theorem foldl_writeFieldReversed_cursor (f : Int → Nat) (w : Nat) (name : List Int)
    (s : BitVector × Nat) :
    (name.foldl (fun s c => writeFieldReversed s.1 s.2 (f c) w) s).2 = s.2 + w * name.length := by
  induction name generalizing s with
  | nil => simp
  | cons c cs ih =>
    rw [List.foldl_cons, ih]
    simp only [writeFieldReversed, List.length_cons]
    ring

theorem numSpareBits_eq (sz : Nat) : numSpareBits sz = (8 - (sz * 7) % 8) % 8 := by
  unfold numSpareBits
  omega

theorem header_bits (ci k : Nat) (hci : ci ≤ 1) (hk : k ≤ 7) :
    ((0x1 <<< 7) ||| (0x0 <<< 4) ||| (ci <<< 3) ||| k) % 2 ^ 8 = 0x80 ||| (ci <<< 3) ||| k ∧
    (0x80 ||| (ci <<< 3) ||| k) / 128 = 1 ∧ (0x80 ||| (ci <<< 3) ||| k) / 16 % 8 = 0 ∧
    (0x80 ||| (ci <<< 3) ||| k) / 8 % 2 = ci ∧ (0x80 ||| (ci <<< 3) ||| k) % 8 = k := by
  interval_cases ci <;> interval_cases k <;> decide

/-- C3: in the default alphabet, the first 8 bits written are the header byte
`0x80 | (CI<<3) | numSpareBits` for CI in {0,1}: extension bit 1, alphabet
selector 000, the country-initials flag in bit 3 and `numSpareBits` in the low
three bits. -/
theorem writeV_default_header (encodeGSMChar : Int → Int) (self : L3NetworkName)
    (dest : L3Frame) (wp : Nat) (h7 : self.mAlphabet = GSMAlphabet.ALPHABET_7BIT)
    (hCI : self.mCI ≤ 1) (hroom : wp + 8 ≤ dest.length) :
    peekField (self.writeV encodeGSMChar dest wp).1 wp 8
        = 0x80 ||| (self.mCI <<< 3) ||| numSpareBits (self.mName.length % 4294967296) ∧
    peekField (self.writeV encodeGSMChar dest wp).1 wp 8 / 128 = 1 ∧
    peekField (self.writeV encodeGSMChar dest wp).1 wp 8 / 16 % 8 = 0 ∧
    peekField (self.writeV encodeGSMChar dest wp).1 wp 8 / 8 % 2 = self.mCI ∧
    peekField (self.writeV encodeGSMChar dest wp).1 wp 8 % 8
        = numSpareBits (self.mName.length % 4294967296) := by
  have hk : numSpareBits (self.mName.length % 4294967296) ≤ 7 := by
    rw [numSpareBits_eq]; omega
  have hb := header_bits self.mCI _ hCI hk
  have hp : peekField (self.writeV encodeGSMChar dest wp).1 wp 8
      = 0x80 ||| (self.mCI <<< 3) ||| numSpareBits (self.mName.length % 4294967296) := by
    simp only [L3NetworkName.writeV, h7, reduceCtorEq, if_false, writeField]
    rw [← hb.1, ← peekField_fillField dest wp _ 8 hroom]
    apply peekField_congr
    intro i hi
    exact putSegment_getD_lt _ _ _ _ (by omega) (by rw [fillField_length]; omega)
  rw [hp]
  exact ⟨rfl, hb.2⟩

/-- Witness of C3: for the name "Test" with CI = 0 the header byte is
binary 10000100 = 0x84, with 4 spare bits. -/
theorem writeV_default_header_witness :
    peekField (L3NetworkName.writeV (fun c => c)
      ⟨GSMAlphabet.ALPHABET_7BIT, [84, 101, 115, 116], 0⟩ (List.replicate 40 false) 0).1 0 8
      = 0x84 ∧ numSpareBits 4 = 4 := by
  have h := writeV_default_header (fun c => c)
    ⟨GSMAlphabet.ALPHABET_7BIT, [84, 101, 115, 116], 0⟩ (List.replicate 40 false) 0 rfl
    (by decide) (by decide)
  exact ⟨h.1, by decide⟩

theorem foldl_writeField_eq (f : Int → Nat) (w : Nat) (name : List Int) (s : BitVector × Nat) :
    name.foldl (fun s c => writeField s.1 s.2 (f c) w) s
      = writeFields s.1 s.2 (name.map (fun c => (f c, w))) := by
  unfold writeFields
  rw [List.foldl_map]

theorem sum_widths_map (f : Int → Nat) (w : Nat) (name : List Int) :
    ((name.map (fun c => (f c, w))).map Prod.snd).sum = w * name.length := by
  induction name with
  | nil => simp
  | cons c cs ih => simp only [List.map_cons, List.sum_cons, ih, List.length_cons]; ring

theorem wide_header_bits (ci : Nat) (hci : ci ≤ 1) :
    ((0x1 <<< 7) ||| (0x1 <<< 4) ||| (ci <<< 3) ||| 0) % 2 ^ 8 = 0x90 ||| (ci <<< 3) ∧
    (0x90 ||| (ci <<< 3)) % 8 = 0 := by
  interval_cases ci <;> decide

theorem writeV_wide_eq (encodeGSMChar : Int → Int) (self : L3NetworkName)
    (dest : L3Frame) (wp : Nat) (hU : self.mAlphabet = GSMAlphabet.ALPHABET_UCS2) :
    self.writeV encodeGSMChar dest wp
      = writeFields dest wp
          (((0x1 <<< 7) ||| (0x1 <<< 4) ||| (self.mCI <<< 3) ||| 0, 8) ::
            (self.mName.take (self.mName.length % 4294967296)).map (fun c => (toU64 c, 16))) := by
  simp only [L3NetworkName.writeV, hU, if_true, foldl_writeField_eq, writeFields_cons]
  rfl

/-- C4: in the wide (UCS2) alphabet, for every name of length sz the cursor
advances by `8 + sz*16`; when the frame has that much room, the header byte
is `0x90 | (CI<<3)` for CI in {0,1} with its low three bits zero, and
character `i` is the 16-bit field at offset `8 + 16*i`, with no padding. -/
theorem writeV_wide_layout (encodeGSMChar : Int → Int) (self : L3NetworkName)
    (dest : L3Frame) (wp : Nat) (hU : self.mAlphabet = GSMAlphabet.ALPHABET_UCS2)
    (hCI : self.mCI ≤ 1)
    (hroom : wp + 8 + self.mName.length % 4294967296 * 16 ≤ dest.length) :
    (self.writeV encodeGSMChar dest wp).2 = wp + 8 + self.mName.length % 4294967296 * 16 ∧
    peekField (self.writeV encodeGSMChar dest wp).1 wp 8 = 0x90 ||| (self.mCI <<< 3) ∧
    peekField (self.writeV encodeGSMChar dest wp).1 wp 8 % 8 = 0 ∧
    ∀ i, i < self.mName.length % 4294967296 →
      peekField (self.writeV encodeGSMChar dest wp).1 (wp + 8 + 16 * i) 16
        = toU64 (self.mName.getD i 0) % 2 ^ 16 := by
  have hb := wide_header_bits self.mCI hCI
  have hsz : self.mName.length % 4294967296 ≤ self.mName.length := Nat.mod_le _ _
  generalize hn : self.mName.length % 4294967296 = sz at *
  have htake : (self.mName.take sz).length = sz := by
    rw [List.length_take]; exact Nat.min_eq_left hsz
  rw [writeV_wide_eq _ _ _ _ hU, hn]
  have hhdr : peekField (writeFields dest wp
      (((0x1 <<< 7) ||| (0x1 <<< 4) ||| (self.mCI <<< 3) ||| 0, 8) ::
        (self.mName.take sz).map (fun c => (toU64 c, 16)))).1 wp 8
      = 0x90 ||| (self.mCI <<< 3) := by
    have := writeFields_peek dest wp [] ((self.mName.take sz).map (fun c => (toU64 c, 16)))
      ((0x1 <<< 7) ||| (0x1 <<< 4) ||| (self.mCI <<< 3) ||| 0) 8 (by simp; omega)
    rw [hb.1] at this
    simpa using this
  refine ⟨?_, hhdr, ?_, ?_⟩
  · rw [writeFields_cursor, List.map_cons, List.sum_cons, sum_widths_map, htake]
    omega
  · rw [hhdr]; exact hb.2
  · intro i hi
    have hi' : i < self.mName.length := by omega
    have hsplit : self.mName.take sz
        = self.mName.take i ++ self.mName.getD i 0 :: (self.mName.take sz).drop (i + 1) := by
      have h1 : i < (self.mName.take sz).length := by omega
      have h2 := (List.take_append_drop i (self.mName.take sz)).symm
      rw [List.drop_eq_getElem_cons h1, List.take_take, Nat.min_eq_left (by omega)] at h2
      rw [List.getElem_take] at h2
      rw [List.getD_eq_getElem _ _ hi']
      exact h2
    have := writeFields_peek dest wp
      (((0x1 <<< 7) ||| (0x1 <<< 4) ||| (self.mCI <<< 3) ||| 0, 8) ::
        (self.mName.take i).map (fun c => (toU64 c, 16)))
      (((self.mName.take sz).drop (i + 1)).map (fun c => (toU64 c, 16)))
      (toU64 (self.mName.getD i 0)) 16
      (by
        rw [List.map_cons, List.sum_cons, sum_widths_map, List.length_take,
          Nat.min_eq_left (by omega)]
        omega)
    rw [List.map_cons, List.sum_cons, sum_widths_map, List.length_take,
      Nat.min_eq_left (by omega)] at this
    rw [← this]
    congr 1
    · congr 2
      conv_lhs => rw [hsplit]
      simp
    · omega

/-- Witness of C4 at a four-character name with CI = 1 in an 80-bit frame. -/
theorem writeV_wide_layout_witness :
    (L3NetworkName.writeV (fun c => c)
      ⟨GSMAlphabet.ALPHABET_UCS2, [84, 101, 115, 116], 1⟩ (List.replicate 80 false) 4).2 = 76 ∧
    peekField (L3NetworkName.writeV (fun c => c)
      ⟨GSMAlphabet.ALPHABET_UCS2, [84, 101, 115, 116], 1⟩ (List.replicate 80 false) 4).1 4 8
      = 0x98 := by
  have h := writeV_wide_layout (fun c => c)
    ⟨GSMAlphabet.ALPHABET_UCS2, [84, 101, 115, 116], 1⟩ (List.replicate 80 false) 4 rfl
    (by decide) (by decide)
  exact ⟨h.1, h.2.1⟩



theorem toU64_tmod_ten (d : Nat) : toU64 (Int.tmod (d : Int) 10) = d % 10 := by
  rw [Int.tmod_eq_emod (by omega) (by omega)]
  unfold toU64
  omega

theorem toU64_tdiv_ten (d : Nat) (hd : d < 18446744073709551616) :
    toU64 (Int.tdiv (d : Int) 10) = d / 10 := by
  rw [Int.tdiv_eq_ediv (by omega) (by omega)]
  unfold toU64
  omega

/-- C5: for the two-digit year `yy` and for day, hour, minute and second
values in 0..99, `writeV` emits the nibble `v mod 10` followed by the nibble
`v / 10` (both at most 9, both 4 bits wide), and on the written frame `parseV`
reconstructs `low + high*10 = v` for each of these fields. -/
theorem writeV_parseV_bcd (localtime_r gmtime_r : Int → Tm) (self : L3TimeZoneAndTime)
    (dest : L3Frame) (wp yy d h mi s : Nat) (hroom : wp + 56 ≤ dest.length)
    (hyy : Int.tmod (self.fields localtime_r gmtime_r).tm_year 100 = yy)
    (hd : (self.fields localtime_r gmtime_r).tm_mday = d) (bd : d ≤ 99)
    (hh : (self.fields localtime_r gmtime_r).tm_hour = h) (bh : h ≤ 99)
    (hmi : (self.fields localtime_r gmtime_r).tm_min = mi) (bmi : mi ≤ 99)
    (hs : (self.fields localtime_r gmtime_r).tm_sec = s) (bs : s ≤ 99) :
    (self.writeVCalls localtime_r gmtime_r).take 2 = [(yy % 10, 4), (yy / 10, 4)] ∧
    ((self.writeVCalls localtime_r gmtime_r).drop 4).take 8
      = [(d % 10, 4), (d / 10, 4), (h % 10, 4), (h / 10, 4),
         (mi % 10, 4), (mi / 10, 4), (s % 10, 4), (s / 10, 4)] ∧
    (yy % 10 ≤ 9 ∧ yy / 10 ≤ 9 ∧ d % 10 ≤ 9 ∧ d / 10 ≤ 9 ∧ h % 10 ≤ 9 ∧ h / 10 ≤ 9 ∧
      mi % 10 ≤ 9 ∧ mi / 10 ≤ 9 ∧ s % 10 ≤ 9 ∧ s / 10 ≤ 9) ∧
    ∃ tm : Tm,
      L3TimeZoneAndTime.parseFields (self.writeV localtime_r gmtime_r dest wp).1 wp
        = .ok (tm, wp + 56) ∧
      tm.tm_year - 2000 = yy ∧ tm.tm_mday = d ∧ tm.tm_hour = h ∧ tm.tm_min = mi ∧
      tm.tm_sec = s := by
  have byy : yy ≤ 99 := by
    have := Int.tmod_lt_of_pos (self.fields localtime_r gmtime_r).tm_year
      (show (0 : Int) < 100 by decide)
    omega
  have e1 : toU32 (yy : Int) = yy := by unfold toU32; omega
  refine ⟨?_, ?_, by omega, ?_⟩
  · simp only [L3TimeZoneAndTime.writeVCalls, hyy, e1, List.take_succ_cons, List.take_zero]
  · simp only [L3TimeZoneAndTime.writeVCalls, hd, hh, hmi, hs, toU64_tmod_ten,
      toU64_tdiv_ten _ (show d < 18446744073709551616 by omega),
      toU64_tdiv_ten _ (show h < 18446744073709551616 by omega),
      toU64_tdiv_ten _ (show mi < 18446744073709551616 by omega),
      toU64_tdiv_ten _ (show s < 18446744073709551616 by omega),
      List.drop_succ_cons, List.drop_zero, List.take_succ_cons, List.take_zero]
  · simp only [L3TimeZoneAndTime.writeV, L3TimeZoneAndTime.writeVCalls, hyy, e1, hd, hh, hmi,
      hs, toU64_tmod_ten,
      toU64_tdiv_ten _ (show d < 18446744073709551616 by omega),
      toU64_tdiv_ten _ (show h < 18446744073709551616 by omega),
      toU64_tdiv_ten _ (show mi < 18446744073709551616 by omega),
      toU64_tdiv_ten _ (show s < 18446744073709551616 by omega)]
    rw [parseFields_writeFields _ _ _ _ _ _ _ _ _ _ _ _ _ _ _ _ _ hroom]
    have n0 : ∀ v : Nat, v ≤ 99 → v % 10 % 16 = v % 10 ∧ v / 10 % 16 = v / 10 :=
      fun v hv => ⟨by omega, by omega⟩
    simp only [(n0 yy byy).1, (n0 yy byy).2, (n0 d bd).1, (n0 d bd).2, (n0 h bh).1,
      (n0 h bh).2, (n0 mi bmi).1, (n0 mi bmi).2, (n0 s bs).1, (n0 s bs).2]
    refine ⟨_, rfl, ?_, ?_, ?_, ?_, ?_⟩ <;> simp only [toI32] <;> push_cast <;> omega

/-- Witness of C5 at 2024-12-31 12:34:56. -/
theorem writeV_parseV_bcd_witness :
    ∃ tm : Tm,
      L3TimeZoneAndTime.parseFields
        (L3TimeZoneAndTime.writeV (fun _ => ⟨56, 34, 12, 31, 11, 124, 3600⟩)
          (fun _ => ⟨56, 34, 12, 31, 11, 124, 0⟩) ⟨⟨0, 0⟩, TimeType.UTC_TIME⟩
          (List.replicate 56 false) 0).1 0 = .ok (tm, 0 + 56) ∧
      tm.tm_year - 2000 = ((24 : Nat) : Int) ∧ tm.tm_mday = ((31 : Nat) : Int) ∧
      tm.tm_hour = ((12 : Nat) : Int) ∧ tm.tm_min = ((34 : Nat) : Int) ∧
      tm.tm_sec = ((56 : Nat) : Int) :=
  (writeV_parseV_bcd (fun _ => ⟨56, 34, 12, 31, 11, 124, 3600⟩)
    (fun _ => ⟨56, 34, 12, 31, 11, 124, 0⟩) ⟨⟨0, 0⟩, TimeType.UTC_TIME⟩
    (List.replicate 56 false) 0 24 31 12 34 56 (by decide) (by decide) (by decide) (by decide)
    (by decide) (by decide) (by decide) (by decide) (by decide) (by decide)).2.2.2

/-- C6: for January (`tm_mon = 0`) `writeV` encodes the month digits 1, 0 and
`parseV` on the written frame reconstructs `tm_mon = 2`, not 0: the reader adds
1 to the decoded month where the writer has already added 1. -/
theorem parseV_month_off_by_two :
    ((L3TimeZoneAndTime.writeVCalls (fun _ => ⟨56, 34, 12, 31, 0, 124, 0⟩)
        (fun _ => ⟨56, 34, 12, 31, 0, 124, 0⟩) ⟨⟨0, 0⟩, TimeType.UTC_TIME⟩).drop 2).take 2
      = [(1, 4), (0, 4)] ∧
    (L3TimeZoneAndTime.parseFields
        (L3TimeZoneAndTime.writeV (fun _ => ⟨56, 34, 12, 31, 0, 124, 0⟩)
          (fun _ => ⟨56, 34, 12, 31, 0, 124, 0⟩) ⟨⟨0, 0⟩, TimeType.UTC_TIME⟩
          (List.replicate 56 false) 0).1 0).map (fun r => r.1.tm_mon)
      = .ok 2 ∧
    (2 : Int) ≠ 0 := by
  refine ⟨by decide, by rfl, by decide⟩

/-- C7: for the calendar year 2024 (`tm_year = 124` on the write side)
`writeV` encodes the digits 4, 2 and `parseV` on the written frame hands
`tm_year = 2024` to the calendar construction, not 124: as a `struct tm` year
it denotes the calendar year 3924. -/
theorem parseV_year_base :
    (L3TimeZoneAndTime.writeVCalls (fun _ => ⟨56, 34, 12, 31, 0, 124, 0⟩)
        (fun _ => ⟨56, 34, 12, 31, 0, 124, 0⟩) ⟨⟨0, 0⟩, TimeType.UTC_TIME⟩).take 2
      = [(4, 4), (2, 4)] ∧
    (L3TimeZoneAndTime.parseFields
        (L3TimeZoneAndTime.writeV (fun _ => ⟨56, 34, 12, 31, 0, 124, 0⟩)
          (fun _ => ⟨56, 34, 12, 31, 0, 124, 0⟩) ⟨⟨0, 0⟩, TimeType.UTC_TIME⟩
          (List.replicate 56 false) 0).1 0).map (fun r => r.1.tm_year)
      = .ok 2024 ∧
    (2024 : Int) ≠ 124 ∧ (2024 : Int) + 1900 = 3924 := by
  refine ⟨by decide, by rfl, by decide, by decide⟩

theorem tdiv_quarter_neg_iff (off : Int) : Int.tdiv off (15 * 60) < 0 ↔ off ≤ -900 := by
  rcases Int.le_total 0 off with h | h
  · rw [Int.tdiv_eq_ediv h (by omega)]; omega
  · have e : off = -(-off) := by omega
    rw [e, Int.neg_tdiv, Int.tdiv_eq_ediv (by omega) (by omega)]; omega

theorem natAbs_tdiv_quarter (off : Int) :
    (Int.tdiv off (15 * 60)).natAbs = off.natAbs / 900 := by
  rw [Int.natAbs_tdiv]
  rfl

theorem writeVCalls_zone (localtime_r gmtime_r : Int → Tm) (self : L3TimeZoneAndTime) :
    (self.writeVCalls localtime_r gmtime_r).drop 12
      = [(if self.zoneSeconds localtime_r gmtime_r ≤ -900 then 1 else 0, 1),
         ((self.zoneSeconds localtime_r gmtime_r).natAbs / 900 % 10, 3),
         ((self.zoneSeconds localtime_r gmtime_r).natAbs / 900 / 10, 4)] := by
  have hb : (self.zoneSeconds localtime_r gmtime_r).natAbs / 900 < 18446744073709551616 := by
    have : (self.zoneSeconds localtime_r gmtime_r).natAbs ≤ 2147483648 := by
      unfold L3TimeZoneAndTime.zoneSeconds
      split <;> simp only [toI32] <;> omega
    omega
  simp only [L3TimeZoneAndTime.writeVCalls, tdiv_quarter_neg_iff, natAbs_tdiv_quarter,
    toU64_tmod_ten, toU64_tdiv_ten _ hb, List.drop_succ_cons, List.drop_zero]

theorem writeVCalls_split (localtime_r gmtime_r : Int → Tm) (self : L3TimeZoneAndTime) :
    ∃ v0 v1 v2 v3 v4 v5 v6 v7 v8 v9 v10 v11 : Nat,
      self.writeVCalls localtime_r gmtime_r
        = [(v0, 4), (v1, 4), (v2, 4), (v3, 4), (v4, 4), (v5, 4), (v6, 4), (v7, 4), (v8, 4),
           (v9, 4), (v10, 4), (v11, 4)] ++ (self.writeVCalls localtime_r gmtime_r).drop 12 :=
  ⟨_, _, _, _, _, _, _, _, _, _, _, _, rfl⟩

/-- C8, the claim as stated fails: a zone offset of -450 seconds is negative
and `writeV` writes the sign field 0. -/
theorem writeV_zone_sign_small_negative :
    L3TimeZoneAndTime.zoneSeconds (fun _ => ⟨56, 34, 12, 31, 11, 124, -450⟩)
        (fun _ => ⟨56, 34, 12, 31, 11, 124, 0⟩) ⟨⟨0, 0⟩, TimeType.LOCAL_TIME⟩ = -450 ∧
    (L3TimeZoneAndTime.writeVCalls (fun _ => ⟨56, 34, 12, 31, 11, 124, -450⟩)
        (fun _ => ⟨56, 34, 12, 31, 11, 124, 0⟩) ⟨⟨0, 0⟩, TimeType.LOCAL_TIME⟩).getD 12 (0, 0)
      = (0, 1) ∧
    peekField (L3TimeZoneAndTime.writeV (fun _ => ⟨56, 34, 12, 31, 11, 124, -450⟩)
        (fun _ => ⟨56, 34, 12, 31, 11, 124, 0⟩) ⟨⟨0, 0⟩, TimeType.LOCAL_TIME⟩
        (List.replicate 56 true) 0).1 48 1 = 0 := by
  refine ⟨by decide, by decide, by decide⟩

/-- C8 as amended: for every zone offset in seconds, `writeV` writes the sign
field 1 exactly when the offset is at most -900, and splits the magnitude
`|offset| / 900` into `magnitude mod 10` (3-bit field) and `magnitude / 10`
(4-bit field); on a frame with room the sign bit holds that sign, and the two
fields hold those digits when the low digit is at most 7 and the high digit at
most 15; a zero offset writes sign 0 and zero digits. -/
theorem writeV_zone_sign (localtime_r gmtime_r : Int → Tm) (self : L3TimeZoneAndTime)
    (dest : L3Frame) (wp : Nat) (off : Int) (hroom : wp + 56 ≤ dest.length)
    (hoff : self.zoneSeconds localtime_r gmtime_r = off) :
    (self.writeVCalls localtime_r gmtime_r).drop 12
      = [(if off ≤ -900 then 1 else 0, 1), (off.natAbs / 900 % 10, 3),
         (off.natAbs / 900 / 10, 4)] ∧
    peekField (self.writeV localtime_r gmtime_r dest wp).1 (wp + 48) 1
      = (if off ≤ -900 then 1 else 0) ∧
    (off.natAbs / 900 % 10 ≤ 7 →
      peekField (self.writeV localtime_r gmtime_r dest wp).1 (wp + 49) 3
        = off.natAbs / 900 % 10) ∧
    (off.natAbs / 900 / 10 ≤ 15 →
      peekField (self.writeV localtime_r gmtime_r dest wp).1 (wp + 52) 4
        = off.natAbs / 900 / 10) ∧
    (off = 0 →
      (self.writeVCalls localtime_r gmtime_r).drop 12 = [(0, 1), (0, 3), (0, 4)] ∧
      peekField (self.writeV localtime_r gmtime_r dest wp).1 (wp + 48) 1 = 0 ∧
      peekField (self.writeV localtime_r gmtime_r dest wp).1 (wp + 49) 3 = 0 ∧
      peekField (self.writeV localtime_r gmtime_r dest wp).1 (wp + 52) 4 = 0) := by
  have hz := writeVCalls_zone localtime_r gmtime_r self
  rw [hoff] at hz
  obtain ⟨v0, v1, v2, v3, v4, v5, v6, v7, v8, v9, v10, v11, hc⟩ :=
    writeVCalls_split localtime_r gmtime_r self
  rw [hz] at hc
  have p12 : peekField (self.writeV localtime_r gmtime_r dest wp).1 (wp + 48) 1
      = (if off ≤ -900 then 1 else 0) := by
    have := writeFields_peek dest wp
      [(v0, 4), (v1, 4), (v2, 4), (v3, 4), (v4, 4), (v5, 4), (v6, 4), (v7, 4), (v8, 4),
        (v9, 4), (v10, 4), (v11, 4)]
      [(off.natAbs / 900 % 10, 3), (off.natAbs / 900 / 10, 4)]
      (if off ≤ -900 then 1 else 0) 1 (by simp; omega)
    rw [L3TimeZoneAndTime.writeV, hc]
    simp only [List.map_cons, List.map_nil, List.sum_cons, List.sum_nil, Nat.reduceAdd] at this
    rw [this]
    split <;> rfl
  have p13 : peekField (self.writeV localtime_r gmtime_r dest wp).1 (wp + 49) 3
      = off.natAbs / 900 % 10 % 2 ^ 3 := by
    have := writeFields_peek dest wp
      [(v0, 4), (v1, 4), (v2, 4), (v3, 4), (v4, 4), (v5, 4), (v6, 4), (v7, 4), (v8, 4),
        (v9, 4), (v10, 4), (v11, 4), (if off ≤ -900 then 1 else 0, 1)]
      [(off.natAbs / 900 / 10, 4)]
      (off.natAbs / 900 % 10) 3 (by simp; omega)
    rw [L3TimeZoneAndTime.writeV, hc]
    simpa using this
  have p14 : peekField (self.writeV localtime_r gmtime_r dest wp).1 (wp + 52) 4
      = off.natAbs / 900 / 10 % 2 ^ 4 := by
    have := writeFields_peek dest wp
      [(v0, 4), (v1, 4), (v2, 4), (v3, 4), (v4, 4), (v5, 4), (v6, 4), (v7, 4), (v8, 4),
        (v9, 4), (v10, 4), (v11, 4), (if off ≤ -900 then 1 else 0, 1),
        (off.natAbs / 900 % 10, 3)]
      []
      (off.natAbs / 900 / 10) 4 (by simp; omega)
    rw [L3TimeZoneAndTime.writeV, hc]
    simpa using this
  refine ⟨hz, p12, ?_, ?_, ?_⟩
  · intro h; rw [p13]; omega
  · intro h; rw [p14]; omega
  · intro h0
    subst h0
    refine ⟨by rw [hz]; rfl, by rw [p12]; rfl, by rw [p13]; rfl, by rw [p14]; rfl⟩

/-- Witness of C8 at the zone offset -3600 seconds (one hour west). -/
theorem writeV_zone_sign_witness :
    (L3TimeZoneAndTime.writeVCalls (fun _ => ⟨56, 34, 12, 31, 11, 124, -3600⟩)
        (fun _ => ⟨56, 34, 12, 31, 11, 124, 0⟩) ⟨⟨0, 0⟩, TimeType.LOCAL_TIME⟩).drop 12
      = [(1, 1), (4, 3), (0, 4)] ∧
    peekField (L3TimeZoneAndTime.writeV (fun _ => ⟨56, 34, 12, 31, 11, 124, -3600⟩)
        (fun _ => ⟨56, 34, 12, 31, 11, 124, 0⟩) ⟨⟨0, 0⟩, TimeType.LOCAL_TIME⟩
        (List.replicate 56 false) 0).1 (0 + 48) 1 = 1 ∧
    peekField (L3TimeZoneAndTime.writeV (fun _ => ⟨56, 34, 12, 31, 11, 124, -3600⟩)
        (fun _ => ⟨56, 34, 12, 31, 11, 124, 0⟩) ⟨⟨0, 0⟩, TimeType.LOCAL_TIME⟩
        (List.replicate 56 false) 0).1 (0 + 49) 3 = 4 := by
  have h := writeV_zone_sign (fun _ => ⟨56, 34, 12, 31, 11, 124, -3600⟩)
    (fun _ => ⟨56, 34, 12, 31, 11, 124, 0⟩) ⟨⟨0, 0⟩, TimeType.LOCAL_TIME⟩
    (List.replicate 56 false) 0 (-3600) (by decide) (by decide)
  exact ⟨h.1, h.2.1, h.2.2.1 (by decide)⟩

/-- C9: for the zone field sign 0, low digit 0, high digit 1, which `writeV`
writes for the offset 9000 seconds (10 quarter hours), `parseV` reconstructs
the offset 900 seconds, not (0 + 10*1) * 900 = 9000: the high digit is added
without the factor 10. For the zone field sign 1, digits 1 and 0 (offset -900
seconds) the reconstructed offset is 4294966396, not -900: the negation is
made in `unsigned` arithmetic. -/
theorem parseV_zone_without_tens :
    (L3TimeZoneAndTime.writeVCalls (fun _ => ⟨56, 34, 12, 31, 11, 124, 9000⟩)
        (fun _ => ⟨56, 34, 12, 31, 11, 124, 0⟩) ⟨⟨0, 0⟩, TimeType.LOCAL_TIME⟩).drop 12
      = [(0, 1), (0, 3), (1, 4)] ∧
    (L3TimeZoneAndTime.parseFields
        (L3TimeZoneAndTime.writeV (fun _ => ⟨56, 34, 12, 31, 11, 124, 9000⟩)
          (fun _ => ⟨56, 34, 12, 31, 11, 124, 0⟩) ⟨⟨0, 0⟩, TimeType.LOCAL_TIME⟩
          (List.replicate 56 false) 0).1 0).map (fun r => r.1.tm_gmtoff)
      = .ok 900 ∧
    (900 : Int) ≠ (0 + 10 * 1) * 900 ∧
    (L3TimeZoneAndTime.writeVCalls (fun _ => ⟨56, 34, 12, 31, 11, 124, -900⟩)
        (fun _ => ⟨56, 34, 12, 31, 11, 124, 0⟩) ⟨⟨0, 0⟩, TimeType.LOCAL_TIME⟩).drop 12
      = [(1, 1), (1, 3), (0, 4)] ∧
    (L3TimeZoneAndTime.parseFields
        (L3TimeZoneAndTime.writeV (fun _ => ⟨56, 34, 12, 31, 11, 124, -900⟩)
          (fun _ => ⟨56, 34, 12, 31, 11, 124, 0⟩) ⟨⟨0, 0⟩, TimeType.LOCAL_TIME⟩
          (List.replicate 56 false) 0).1 0).map (fun r => r.1.tm_gmtoff)
      = .ok 4294966396 := by
  refine ⟨by decide, by rfl, by decide, by decide, by rfl⟩

/-- C10, the claim as stated fails: on a 96-bit frame `writeV` leaves the write
cursor at 56, not at 96. -/
theorem writeV_time_cursor_not_96 :
    (L3TimeZoneAndTime.writeV (fun _ => ⟨56, 34, 12, 31, 11, 124, 3600⟩)
        (fun _ => ⟨56, 34, 12, 31, 11, 124, 0⟩) ⟨⟨0, 0⟩, TimeType.UTC_TIME⟩
        (List.replicate 96 false) 0).2 = 56 ∧ (56 : Nat) ≠ 96 := by
  refine ⟨by decide, by decide⟩

/-- C10 as amended: for every input, `writeV` writes twelve 4-bit BCD nibbles
for year, month, day, hour, minute and second followed by the 1-bit sign and
the 3-bit and 4-bit zone fields, 56 bits in all: the write cursor advances by
exactly 56 and the length of the frame is unchanged. -/
theorem writeV_time_cursor (localtime_r gmtime_r : Int → Tm) (self : L3TimeZoneAndTime)
    (dest : L3Frame) (wp : Nat) :
    (self.writeVCalls localtime_r gmtime_r).map Prod.snd
      = [4, 4, 4, 4, 4, 4, 4, 4, 4, 4, 4, 4, 1, 3, 4] ∧
    (self.writeV localtime_r gmtime_r dest wp).2 = wp + 56 ∧
    (self.writeV localtime_r gmtime_r dest wp).1.length = dest.length := by
  have hw : (self.writeVCalls localtime_r gmtime_r).map Prod.snd
      = [4, 4, 4, 4, 4, 4, 4, 4, 4, 4, 4, 4, 1, 3, 4] := rfl
  refine ⟨hw, ?_, ?_⟩
  · rw [L3TimeZoneAndTime.writeV, writeFields_cursor, hw]
    rfl
  · rw [L3TimeZoneAndTime.writeV, writeFields_length]

theorem fillField_fillField_getD_outside (bits : BitVector) (wp v len i : Nat)
    (h : i < wp ∨ wp + len ≤ i) :
    (fillField bits wp v len).getD i false = bits.getD i false := by
  rw [fillField_getD, if_neg (by omega)]

theorem readField_fillField (bits : BitVector) (wp v len : Nat) (hv : v < 2 ^ len)
    (h : wp + len ≤ bits.length) :
    readField (fillField bits wp v len) wp len = .ok (v, wp + len) := by
  rw [readField_ok _ _ _ (by rw [fillField_length]; exact h), peekField_fillField _ _ _ _ h,
    Nat.mod_eq_of_lt hv]

theorem readField_of_bits (src : BitVector) (rp v len : Nat) (hv : v < 2 ^ len)
    (hroom : rp + len ≤ src.length)
    (hbits : ∀ i, i < len → src.getD (rp + i) false = v.testBit (len - 1 - i)) :
    readField src rp len = .ok (v, rp + len) := by
  rw [readField_ok _ _ _ hroom, peekField_testBit _ _ _ _ hbits, Nat.mod_eq_of_lt hv]

/-- C11: for every pair of 64-bit values (hi, lo), `writeV` of the RAND element
writes exactly 128 bits (cursor + 128, nothing outside them changed), the high
half first and then the low half, each most-significant-bit-first, and reading
two 64-bit fields back from the same position yields (hi, lo). -/
theorem RAND_writeV_round_trip (self : L3AuthenticationParameterRAND) (dest : L3Frame)
    (wp : Nat) (hhi : self.mRANDHigh < 2 ^ 64) (hlo : self.mRANDLow < 2 ^ 64)
    (hroom : wp + 128 ≤ dest.length) :
    (self.writeV dest wp).2 = wp + 128 ∧
    (self.writeV dest wp).1.length = dest.length ∧
    (∀ i, i < wp ∨ wp + 128 ≤ i →
      (self.writeV dest wp).1.getD i false = dest.getD i false) ∧
    (∀ i, i < 64 →
      (self.writeV dest wp).1.getD (wp + i) false = self.mRANDHigh.testBit (63 - i) ∧
      (self.writeV dest wp).1.getD (wp + 64 + i) false = self.mRANDLow.testBit (63 - i)) ∧
    readField (self.writeV dest wp).1 wp 64 = .ok (self.mRANDHigh, wp + 64) ∧
    readField (self.writeV dest wp).1 (wp + 64) 64 = .ok (self.mRANDLow, wp + 64 + 64) := by
  have hout : (self.writeV dest wp).1
      = fillField (fillField dest wp self.mRANDHigh 64) (wp + 64) self.mRANDLow 64 := rfl
  have hbits : ∀ i, i < 64 →
      (self.writeV dest wp).1.getD (wp + i) false = self.mRANDHigh.testBit (63 - i) ∧
      (self.writeV dest wp).1.getD (wp + 64 + i) false = self.mRANDLow.testBit (63 - i) := by
    intro i hi
    rw [hout]
    constructor
    · rw [fillField_getD, if_neg (by omega), fillField_getD,
        if_pos ⟨by omega, by omega, by omega⟩]
      congr 1
      omega
    · rw [fillField_getD, if_pos ⟨by omega, by omega, by rw [fillField_length]; omega⟩]
      congr 1
      omega
  have hlen : (self.writeV dest wp).1.length = dest.length := by
    rw [hout, fillField_length, fillField_length]
  refine ⟨rfl, hlen, ?_, hbits, ?_, ?_⟩
  · intro i hi
    rw [hout, fillField_getD, if_neg (by omega), fillField_getD, if_neg (by omega)]
  · exact readField_of_bits _ _ _ _ hhi (by omega) (fun i hi => (hbits i hi).1)
  · exact readField_of_bits _ _ _ _ hlo (by omega) (fun i hi => (hbits i hi).2)

/-- Witness of C11 at hi = 0x0102030405060708, lo = 0x090A0B0C0D0E0F10 on a
128-bit frame. -/
theorem RAND_writeV_round_trip_witness :
    readField ((L3AuthenticationParameterRAND.mk 0x0102030405060708 0x090A0B0C0D0E0F10
        []).writeV (List.replicate 128 false) 0).1 0 64 = .ok (0x0102030405060708, 0 + 64) ∧
    readField ((L3AuthenticationParameterRAND.mk 0x0102030405060708 0x090A0B0C0D0E0F10
        []).writeV (List.replicate 128 false) 0).1 (0 + 64) 64
      = .ok (0x090A0B0C0D0E0F10, 0 + 64 + 64) :=
  (RAND_writeV_round_trip
    (L3AuthenticationParameterRAND.mk 0x0102030405060708 0x090A0B0C0D0E0F10 [])
    (List.replicate 128 false) 0 (by decide) (by decide) (by simp)).2.2.2.2

/-- C12: for every 32-bit value v, when the 32 bits at the read cursor hold v
most-significant-bit-first, `parseV` of the SRES element sets the response
value to v and advances the read cursor by 32. -/
theorem SRES_parseV_value (self : L3AuthenticationParameterSRES) (src : L3Frame)
    (rp v : Nat) (hv : v < 2 ^ 32) (hroom : rp + 32 ≤ src.length)
    (hbits : ∀ i, i < 32 → src.getD (rp + i) false = v.testBit (31 - i)) :
    self.parseV src rp = .ok ({ mSRES := v }, rp + 32) := by
  have h := readField_of_bits src rp v 32 hv hroom hbits
  simp only [L3AuthenticationParameterSRES.parseV, h, bind, Except.bind, pure, Except.pure]

/-- Witness of C12 at v = 0xDEADBEEF written at offset 3 of a 40-bit frame. -/
theorem SRES_parseV_value_witness :
    (L3AuthenticationParameterSRES.mk 0).parseV
        (fillField (List.replicate 40 false) 3 0xDEADBEEF 32) 3
      = .ok ({ mSRES := 0xDEADBEEF }, 3 + 32) :=
  SRES_parseV_value (L3AuthenticationParameterSRES.mk 0)
    (fillField (List.replicate 40 false) 3 0xDEADBEEF 32) 3 0xDEADBEEF (by decide) (by decide)
    (by decide)

/-- C13: for every 4-bit code c in 0..15, member of the enumeration or not,
`parseV` of the service type on a frame holding c at the read cursor yields the
numeric code c itself and advances the read cursor by 4. -/
theorem CMServiceType_parseV_code (self : L3CMServiceType) (src : L3Frame)
    (rp c : Nat) (hc : c < 16) (hroom : rp + 4 ≤ src.length)
    (hbits : ∀ i, i < 4 → src.getD (rp + i) false = c.testBit (3 - i)) :
    self.parseV src rp = .ok ({ mType := c }, rp + 4) := by
  have h := readField_of_bits src rp c 4 hc hroom hbits
  simp only [L3CMServiceType.parseV, h, bind, Except.bind, pure, Except.pure]

/-- Witness of C13 at the code 15, which the enumeration does not list. -/
theorem CMServiceType_parseV_code_witness :
    (L3CMServiceType.mk 0).parseV [false, true, true, true, true, false] 1
      = .ok ({ mType := 15 }, 1 + 4) :=
  CMServiceType_parseV_code (L3CMServiceType.mk 0) [false, true, true, true, true, false] 1 15
    (by decide) (by decide) (by decide)

/-- C14: for every 8-bit cause value v, `writeV` of the reject cause writes
exactly 8 bits (cursor + 8, nothing outside them changed) and an independent
8-bit read at the same position yields v. -/
theorem RejectCause_writeV_round_trip (self : L3RejectCause) (dest : L3Frame) (wp : Nat)
    (hv : self.mRejectCause < 256) (hroom : wp + 8 ≤ dest.length) :
    (self.writeV dest wp).2 = wp + 8 ∧
    (self.writeV dest wp).1.length = dest.length ∧
    (∀ i, i < wp ∨ wp + 8 ≤ i →
      (self.writeV dest wp).1.getD i false = dest.getD i false) ∧
    readField (self.writeV dest wp).1 wp 8 = .ok (self.mRejectCause, wp + 8) := by
  refine ⟨rfl, fillField_length _ _ _ _, ?_, ?_⟩
  · intro i hi
    exact fillField_fillField_getD_outside _ _ _ _ _ hi
  · exact readField_fillField dest wp self.mRejectCause 8 hv hroom

/-- Witness of C14 at the cause 0x11 written at offset 8 of a 16-bit frame. -/
theorem RejectCause_writeV_round_trip_witness :
    readField ((L3RejectCause.mk 0x11).writeV (List.replicate 16 true) 8).1 8 8
      = .ok (0x11, 8 + 8) :=
  (RejectCause_writeV_round_trip (L3RejectCause.mk 0x11) (List.replicate 16 true) 8
    (by decide) (by decide)).2.2.2

theorem parseFields_eq_readFields (src : L3Frame) (rp : Nat) :
    L3TimeZoneAndTime.parseFields src rp
      = (readFields src rp L3TimeZoneAndTime.parseVWidths).map
          (fun p => (L3TimeZoneAndTime.fieldsOfReads p.1, p.2)) := by
  simp only [L3TimeZoneAndTime.parseFields, readFields, L3TimeZoneAndTime.parseVWidths, bind,
    Except.bind, pure, Except.pure, Except.map]
  generalize readField src rp 4 = x0
  rcases x0 with e | r0
  · rfl
  dsimp only
  generalize readField src r0.2 4 = x1
  rcases x1 with e | r1
  · rfl
  dsimp only
  generalize readField src r1.2 4 = x2
  rcases x2 with e | r2
  · rfl
  dsimp only
  generalize readField src r2.2 4 = x3
  rcases x3 with e | r3
  · rfl
  dsimp only
  generalize readField src r3.2 4 = x4
  rcases x4 with e | r4
  · rfl
  dsimp only
  generalize readField src r4.2 4 = x5
  rcases x5 with e | r5
  · rfl
  dsimp only
  generalize readField src r5.2 4 = x6
  rcases x6 with e | r6
  · rfl
  dsimp only
  generalize readField src r6.2 4 = x7
  rcases x7 with e | r7
  · rfl
  dsimp only
  generalize readField src r7.2 4 = x8
  rcases x8 with e | r8
  · rfl
  dsimp only
  generalize readField src r8.2 4 = x9
  rcases x9 with e | r9
  · rfl
  dsimp only
  generalize readField src r9.2 4 = x10
  rcases x10 with e | r10
  · rfl
  dsimp only
  generalize readField src r10.2 4 = x11
  rcases x11 with e | r11
  · rfl
  dsimp only
  generalize readField src r11.2 1 = x12
  rcases x12 with e | r12
  · rfl
  dsimp only
  generalize readField src r12.2 3 = x13
  rcases x13 with e | r13
  · rfl
  dsimp only
  generalize readField src r13.2 4 = x14
  rcases x14 with e | r14
  · rfl
  dsimp only
  rfl

theorem readFields_error (src : L3Frame) (rp w : Nat) (ws : List Nat)
    (h : src.length < rp + (w :: ws).sum) :
    readFields src rp (w :: ws) = .error FrameError.outOfRange := by
  induction ws generalizing rp w with
  | nil =>
    have hw : ¬ rp + w ≤ src.length := by simp only [List.sum_cons, List.sum_nil] at h; omega
    simp [readFields, readField, hw]
  | cons w2 ws ih =>
    by_cases hw : rp + w ≤ src.length
    · have h2 := ih (rp + w) w2 (by simp only [List.sum_cons] at h ⊢; omega)
      rw [readFields, readField_ok _ _ _ hw]
      simp only
      rw [h2]
    · simp [readFields, readField, hw]

theorem parseFields_error (src : L3Frame) (rp : Nat) (h : src.length < rp + 56) :
    L3TimeZoneAndTime.parseFields src rp = .error FrameError.outOfRange := by
  rw [parseFields_eq_readFields, L3TimeZoneAndTime.parseVWidths,
    readFields_error src rp 4 _ (by simpa using h)]
  rfl

/-- C16: for the valid breakdown 2024-12-31 12:34:56 and the zone offset 7200
seconds (8 quarter hours), `writeV` passes the value 8 to `writeField` with the
width 3, and 8 is not below 2^3, while the other fourteen values are below 2 to
their width; the 3-bit field of the frame then holds 0. -/
theorem writeV_zone_digit_oversized :
    (L3TimeZoneAndTime.writeVCalls (fun _ => ⟨56, 34, 12, 31, 11, 124, 7200⟩)
        (fun _ => ⟨56, 34, 12, 31, 11, 124, 0⟩) ⟨⟨0, 0⟩, TimeType.LOCAL_TIME⟩).getD 13 (0, 0)
      = (8, 3) ∧
    ¬ (8 < 2 ^ 3) ∧
    (∀ p ∈ (L3TimeZoneAndTime.writeVCalls (fun _ => ⟨56, 34, 12, 31, 11, 124, 7200⟩)
        (fun _ => ⟨56, 34, 12, 31, 11, 124, 0⟩) ⟨⟨0, 0⟩, TimeType.LOCAL_TIME⟩).eraseIdx 13,
      p.1 < 2 ^ p.2) ∧
    peekField (L3TimeZoneAndTime.writeV (fun _ => ⟨56, 34, 12, 31, 11, 124, 7200⟩)
        (fun _ => ⟨56, 34, 12, 31, 11, 124, 0⟩) ⟨⟨0, 0⟩, TimeType.LOCAL_TIME⟩
        (List.replicate 56 true) 0).1 49 3 = 0 := by
  refine ⟨by decide, by decide, by decide, by decide⟩

theorem readFields_peekFields (src : L3Frame) (rp : Nat) (ws : List Nat)
    (h : rp + ws.sum ≤ src.length) :
    readFields src rp ws = .ok (peekFields src rp ws, rp + ws.sum) := by
  induction ws generalizing rp with
  | nil => simp [readFields, peekFields]
  | cons w ws ih =>
    simp only [List.sum_cons] at h
    simp only [readFields, readField_ok _ _ _ (show rp + w ≤ src.length by omega),
      ih (rp + w) (by omega), List.sum_cons, Nat.add_assoc, peekFields]

theorem parseFields_peekFields (src : L3Frame) (rp : Nat) (h : rp + 56 ≤ src.length) :
    L3TimeZoneAndTime.parseFields src rp
      = .ok (L3TimeZoneAndTime.fieldsOfReads
          (peekFields src rp L3TimeZoneAndTime.parseVWidths), rp + 56) := by
  rw [parseFields_eq_readFields, readFields_peekFields src rp _
    (by simpa [L3TimeZoneAndTime.parseVWidths] using h)]
  rfl

/-- C20: for two frames with at least 56 bits left that agree on the 48 BCD
date and time bits at the read cursor, and so differ at most in the sign bit
and the two zone digits, `parseV` returns the same element, hence the same
`mTime`, and the same cursor, given that `timegm` computes its result from
year, month, day, hour, minute and second only. -/
theorem parseV_zone_independent (timegm : Tm → Int) (self : L3TimeZoneAndTime)
    (src1 src2 : L3Frame) (rp : Nat)
    (htimegm : ∀ a b : Tm, a.tm_sec = b.tm_sec → a.tm_min = b.tm_min →
      a.tm_hour = b.tm_hour → a.tm_mday = b.tm_mday → a.tm_mon = b.tm_mon →
      a.tm_year = b.tm_year → timegm a = timegm b)
    (h1 : rp + 56 ≤ src1.length) (h2 : rp + 56 ≤ src2.length)
    (hagree : ∀ i, i < 48 → src1.getD (rp + i) false = src2.getD (rp + i) false) :
    self.parseV timegm src1 rp = self.parseV timegm src2 rp ∧
    ∃ r, self.parseV timegm src1 rp = .ok (r, rp + 56) := by
  have hp : ∀ k, k + 4 ≤ 48 → peekField src1 (rp + k) 4 = peekField src2 (rp + k) 4 := by
    intro k hk
    apply peekField_congr
    intro i hi
    rw [Nat.add_assoc]
    exact hagree (k + i) (by omega)
  have hp0 : peekField src1 rp 4 = peekField src2 rp 4 := hp 0 (by omega)
  have e : timegm (L3TimeZoneAndTime.fieldsOfReads
        (peekFields src1 rp L3TimeZoneAndTime.parseVWidths))
      = timegm (L3TimeZoneAndTime.fieldsOfReads
        (peekFields src2 rp L3TimeZoneAndTime.parseVWidths)) := by
    apply htimegm <;>
    simp only [L3TimeZoneAndTime.fieldsOfReads, L3TimeZoneAndTime.parseVWidths, peekFields,
      List.getD_cons_zero, List.getD_cons_succ, Nat.add_assoc, Nat.reduceAdd, hp0,
      hp 4 (by omega), hp 8 (by omega), hp 12 (by omega), hp 16 (by omega), hp 20 (by omega),
      hp 24 (by omega), hp 28 (by omega), hp 32 (by omega), hp 36 (by omega),
      hp 40 (by omega), hp 44 (by omega)]
  simp only [L3TimeZoneAndTime.parseV, parseFields_peekFields src1 rp h1,
    parseFields_peekFields src2 rp h2, bind, Except.bind, pure, Except.pure, e]
  exact ⟨trivial, _, rfl⟩

/-- Witness of C20: two 56-bit frames with the same 48 date and time bits, the
zone bits all zero in one and all one in the other, with a `timegm` that adds
up the six calendar fields. -/
theorem parseV_zone_independent_witness :
    (L3TimeZoneAndTime.mk ⟨0, 0⟩ TimeType.UTC_TIME).parseV
        (fun t => t.tm_sec + t.tm_min + t.tm_hour + t.tm_mday + t.tm_mon + t.tm_year)
        (List.replicate 48 false ++ List.replicate 8 false) 0
      = (L3TimeZoneAndTime.mk ⟨0, 0⟩ TimeType.UTC_TIME).parseV
        (fun t => t.tm_sec + t.tm_min + t.tm_hour + t.tm_mday + t.tm_mon + t.tm_year)
        (List.replicate 48 false ++ List.replicate 8 true) 0 :=
  (parseV_zone_independent
    (fun t => t.tm_sec + t.tm_min + t.tm_hour + t.tm_mday + t.tm_mon + t.tm_year)
    (L3TimeZoneAndTime.mk ⟨0, 0⟩ TimeType.UTC_TIME)
    (List.replicate 48 false ++ List.replicate 8 false)
    (List.replicate 48 false ++ List.replicate 8 true) 0
    (by intro a b h1 h2 h3 h4 h5 h6; simp only [h1, h2, h3, h4, h5, h6])
    (by simp) (by simp)
    (by
      intro i hi
      rw [List.getD_eq_getElem?_getD, List.getD_eq_getElem?_getD,
        List.getElem?_append_left (by simpa using hi),
        List.getElem?_append_left (by simpa using hi)])).1

theorem getRandToA3A8_bytes (self : L3AuthenticationParameterRAND)
    (h : self.rand.length = 16) :
    self.getRandToA3A8
      = [(self.mRANDHigh >>> 56) &&& 0xFF, (self.mRANDHigh >>> 48) &&& 0xFF,
         (self.mRANDHigh >>> 40) &&& 0xFF, (self.mRANDHigh >>> 32) &&& 0xFF,
         (self.mRANDHigh >>> 24) &&& 0xFF, (self.mRANDHigh >>> 16) &&& 0xFF,
         (self.mRANDHigh >>> 8) &&& 0xFF, (self.mRANDHigh >>> 0) &&& 0xFF,
         (self.mRANDLow >>> 56) &&& 0xFF, (self.mRANDLow >>> 48) &&& 0xFF,
         (self.mRANDLow >>> 40) &&& 0xFF, (self.mRANDLow >>> 32) &&& 0xFF,
         (self.mRANDLow >>> 24) &&& 0xFF, (self.mRANDLow >>> 16) &&& 0xFF,
         (self.mRANDLow >>> 8) &&& 0xFF, (self.mRANDLow >>> 0) &&& 0xFF] := by
  obtain ⟨a0, a1, a2, a3, a4, a5, a6, a7, a8, a9, b0, b1, b2, b3, b4, b5, hr⟩ :=
    length_sixteen self.rand h
  simp [L3AuthenticationParameterRAND.getRandToA3A8, randChars, hr, List.range,
    List.range.loop, toU8_toI8_and]

theorem RAND_writeV_getD (self : L3AuthenticationParameterRAND) (dest : L3Frame) (wp i : Nat)
    (hroom : wp + 128 ≤ dest.length) (hi : i < 64) :
    (self.writeV dest wp).1.getD (wp + i) false = self.mRANDHigh.testBit (63 - i) ∧
    (self.writeV dest wp).1.getD (wp + 64 + i) false = self.mRANDLow.testBit (63 - i) := by
  have hout : (self.writeV dest wp).1
      = fillField (fillField dest wp self.mRANDHigh 64) (wp + 64) self.mRANDLow 64 := rfl
  rw [hout]
  constructor
  · rw [fillField_getD, if_neg (by omega), fillField_getD,
      if_pos ⟨by omega, by omega, by omega⟩]
    congr 1
    omega
  · rw [fillField_getD, if_pos ⟨by omega, by omega, by rw [fillField_length]; omega⟩]
    congr 1
    omega

theorem peekField_byte_of_field (bits : BitVector) (p v k : Nat) (hk : k < 8)
    (hbits : ∀ i, i < 64 → bits.getD (p + i) false = v.testBit (63 - i)) :
    peekField bits (p + 8 * k) 8 = (v >>> (8 * (7 - k))) &&& 0xFF := by
  have h := peekField_testBit bits (p + 8 * k) (v >>> (8 * (7 - k))) 8 (by
    intro i hi
    rw [Nat.add_assoc, hbits (8 * k + i) (by omega), Nat.testBit_shiftRight]
    congr 1
    omega)
  rw [h]
  exact (Nat.and_pow_two_sub_one_eq_mod _ 8).symm

theorem beBytes16_halves (hi lo : Nat) (hlo : lo < 2 ^ 64) :
    beBytes16 (hi * 2 ^ 64 + lo)
      = [(hi >>> 56) &&& 0xFF, (hi >>> 48) &&& 0xFF, (hi >>> 40) &&& 0xFF,
         (hi >>> 32) &&& 0xFF, (hi >>> 24) &&& 0xFF, (hi >>> 16) &&& 0xFF,
         (hi >>> 8) &&& 0xFF, (hi >>> 0) &&& 0xFF,
         (lo >>> 56) &&& 0xFF, (lo >>> 48) &&& 0xFF, (lo >>> 40) &&& 0xFF,
         (lo >>> 32) &&& 0xFF, (lo >>> 24) &&& 0xFF, (lo >>> 16) &&& 0xFF,
         (lo >>> 8) &&& 0xFF, (lo >>> 0) &&& 0xFF] := by
  have hand : ∀ x : Nat, x &&& 0xFF = x % 256 := fun x => Nat.and_pow_two_sub_one_eq_mod x 8
  simp only [beBytes16, List.range, List.range.loop, List.map_cons, List.map_nil, hand,
    Nat.shiftRight_eq_div_pow]
  norm_num
  refine ⟨?_, ?_, ?_, ?_, ?_, ?_, ?_, ?_, ?_, ?_, ?_, ?_, ?_, ?_, ?_, ?_⟩ <;> omega

theorem RAND_frameBytes (self : L3AuthenticationParameterRAND) (dest : L3Frame) (wp : Nat)
    (hroom : wp + 128 ≤ dest.length) :
    frameBytes (self.writeV dest wp).1 wp 16
      = (List.range 16).map (fun k =>
          if k < 8 then (self.mRANDHigh >>> (8 * (7 - k))) &&& 0xFF
          else (self.mRANDLow >>> (8 * (15 - k))) &&& 0xFF) := by
  unfold frameBytes
  apply List.map_congr_left
  intro k hk
  have hk16 : k < 16 := List.mem_range.mp hk
  by_cases h8 : k < 8
  · rw [if_pos h8]
    exact peekField_byte_of_field _ wp _ k h8
      (fun i hi => (RAND_writeV_getD self dest wp i hroom hi).1)
  · rw [if_neg h8]
    have h := peekField_byte_of_field (self.writeV dest wp).1 (wp + 64) self.mRANDLow (k - 8)
      (by omega) (fun i hi => (RAND_writeV_getD self dest wp i hroom hi).2)
    have e1 : wp + 64 + 8 * (k - 8) = wp + 8 * k := by omega
    have e2 : 8 * (7 - (k - 8)) = 8 * (15 - k) := by omega
    rw [e1, e2] at h
    exact h

/-- C18: for every pair of halves (hi, lo) with lo below 2^64, the 16 bytes
that `getRandToA3A8` returns are the 16 bytes obtained by packing, eight bits
at a time, the 128 bits that `writeV` writes, and they are the big-endian bytes
of the 128-bit number hi * 2^64 + lo. -/
theorem getRandToA3A8_agrees_with_wire (self : L3AuthenticationParameterRAND)
    (dest : L3Frame) (wp : Nat) (hrand : self.rand.length = 16)
    (hlo : self.mRANDLow < 2 ^ 64) (hroom : wp + 128 ≤ dest.length) :
    self.getRandToA3A8 = frameBytes (self.writeV dest wp).1 wp 16 ∧
    self.getRandToA3A8 = beBytes16 (self.mRANDHigh * 2 ^ 64 + self.mRANDLow) ∧
    (self.writeV dest wp).2 = wp + 128 := by
  refine ⟨?_, ?_, rfl⟩
  · rw [getRandToA3A8_bytes self hrand, RAND_frameBytes self dest wp hroom]
    simp [List.range, List.range.loop]
  · rw [getRandToA3A8_bytes self hrand, beBytes16_halves _ _ hlo]

/-- Witness of C18 at hi = 0x0102030405060708, lo = 0x090A0B0C0D0E0F10 on a
128-bit frame. -/
theorem getRandToA3A8_agrees_with_wire_witness :
    (L3AuthenticationParameterRAND.mk 0x0102030405060708 0x090A0B0C0D0E0F10
        (List.replicate 16 0)).getRandToA3A8
      = frameBytes ((L3AuthenticationParameterRAND.mk 0x0102030405060708 0x090A0B0C0D0E0F10
          (List.replicate 16 0)).writeV (List.replicate 128 false) 0).1 0 16 ∧
    (L3AuthenticationParameterRAND.mk 0x0102030405060708 0x090A0B0C0D0E0F10
        (List.replicate 16 0)).getRandToA3A8
      = beBytes16 (0x0102030405060708 * 2 ^ 64 + 0x090A0B0C0D0E0F10) := by
  have h := getRandToA3A8_agrees_with_wire
    (L3AuthenticationParameterRAND.mk 0x0102030405060708 0x090A0B0C0D0E0F10
      (List.replicate 16 0)) (List.replicate 128 false) 0 (by decide) (by decide) (by simp)
  exact ⟨h.1, h.2.1⟩

theorem septetSum_eq_packSeptets (codes : List Nat) : septetSum codes = packSeptets codes := by
  induction codes with
  | nil => rfl
  | cons c cs ih =>
    rw [packSeptets, ← ih]
    unfold septetSum
    rw [List.length_cons, List.range_succ_eq_map, List.map_cons, List.sum_cons, List.map_map,
      ← List.sum_map_mul_left]
    simp only [List.getD_cons_zero, Nat.mul_zero, pow_zero, Nat.mul_one, Nat.add_left_cancel_iff]
    congr 1
    apply List.map_congr_left
    intro i _
    simp only [Function.comp, List.getD_cons_succ]
    rw [show 7 * (i + 1) = 7 * i + 7 by ring, pow_add]
    ring

theorem packSeptets_testBit (codes : List Nat) (h : ∀ c ∈ codes, c < 128) (j : Nat) :
    (packSeptets codes).testBit j = (codes.getD (j / 7) 0).testBit (j % 7) := by
  induction codes generalizing j with
  | nil => simp [packSeptets]
  | cons c cs ih =>
    have hc : c < 2 ^ 7 := h c (List.mem_cons_self _ _)
    have hcs : ∀ x ∈ cs, x < 128 := fun x hx => h x (List.mem_cons_of_mem _ hx)
    rw [packSeptets, Nat.add_comm, show (128 : Nat) = 2 ^ 7 from rfl,
      Nat.testBit_mul_pow_two_add _ hc]
    by_cases hj : j < 7
    · rw [if_pos hj, Nat.div_eq_of_lt hj, Nat.mod_eq_of_lt hj, List.getD_cons_zero]
    · rw [if_neg hj, ih hcs]
      have e1 : j / 7 = (j - 7) / 7 + 1 := by omega
      have e2 : j % 7 = (j - 7) % 7 := by omega
      rw [e1, e2, List.getD_cons_succ]

theorem packSeptets_lt (codes : List Nat) (h : ∀ c ∈ codes, c < 128) :
    packSeptets codes < 2 ^ (7 * codes.length) := by
  induction codes with
  | nil => simp [packSeptets]
  | cons c cs ih =>
    have hc : c < 128 := h c (List.mem_cons_self _ _)
    have hcs := ih (fun x hx => h x (List.mem_cons_of_mem _ hx))
    rw [packSeptets, List.length_cons, show 7 * (cs.length + 1) = 7 * cs.length + 7 by ring,
      pow_add]
    norm_num
    omega

theorem fillFieldReversed_length (bits : BitVector) (wp v len : Nat) :
    (fillFieldReversed bits wp v len).length = bits.length := by
  induction bits generalizing wp v len with
  | nil => simp [fillFieldReversed]
  | cons b bs ih =>
    cases wp with
    | zero => cases len with
      | zero => simp [fillFieldReversed]
      | succ n => simp [fillFieldReversed, ih]
    | succ w => simp [fillFieldReversed, ih]

theorem fillFieldReversed_getD (bits : BitVector) (wp v len i : Nat) :
    (fillFieldReversed bits wp v len).getD i false =
      if wp ≤ i ∧ i < wp + len ∧ i < bits.length then v.testBit (i - wp)
      else bits.getD i false := by
  induction bits generalizing wp v len i with
  | nil => simp [fillFieldReversed]
  | cons b bs ih =>
    cases wp with
    | zero =>
      cases len with
      | zero => simp [fillFieldReversed]
      | succ n =>
        cases i with
        | zero => simp [fillFieldReversed]
        | succ j =>
          simp only [fillFieldReversed, List.getD_cons_succ, ih, List.length_cons]
          by_cases h : j < 0 + n ∧ j < bs.length
          · have h1 : 0 ≤ j ∧ j < 0 + n ∧ j < bs.length := ⟨Nat.zero_le _, h.1, h.2⟩
            have h2 : 0 ≤ j + 1 ∧ j + 1 < 0 + (n + 1) ∧ j + 1 < bs.length + 1 :=
              ⟨Nat.zero_le _, by omega, by omega⟩
            rw [if_pos h1, if_pos h2, Nat.testBit_div_two]
            rfl
          · have h1 : ¬ (0 ≤ j ∧ j < 0 + n ∧ j < bs.length) := fun hh => h ⟨hh.2.1, hh.2.2⟩
            have h2 : ¬ (0 ≤ j + 1 ∧ j + 1 < 0 + (n + 1) ∧ j + 1 < bs.length + 1) :=
              fun hh => h ⟨by omega, by omega⟩
            rw [if_neg h1, if_neg h2]
    | succ w =>
      cases i with
      | zero => simp [fillFieldReversed]
      | succ j =>
        simp only [fillFieldReversed, List.getD_cons_succ, ih, List.length_cons]
        by_cases h : w ≤ j ∧ j < w + len ∧ j < bs.length
        · have h2 : w + 1 ≤ j + 1 ∧ j + 1 < w + 1 + len ∧ j + 1 < bs.length + 1 :=
            ⟨by omega, by omega, by omega⟩
          rw [if_pos h, if_pos h2]
          congr 1
          omega
        · have h2 : ¬ (w + 1 ≤ j + 1 ∧ j + 1 < w + 1 + len ∧ j + 1 < bs.length + 1) :=
            fun hh => h ⟨by omega, by omega, by omega⟩
          rw [if_neg h, if_neg h2]

theorem foldl_writeFieldReversed_length (codes : List Nat) (s : BitVector × Nat) :
    (codes.foldl (fun s v => writeFieldReversed s.1 s.2 v 7) s).1.length = s.1.length := by
  induction codes generalizing s with
  | nil => rfl
  | cons c cs ih =>
    rw [List.foldl_cons, ih]
    exact fillFieldReversed_length _ _ _ _

theorem foldl_writeFieldReversed_cursor_codes (codes : List Nat) (s : BitVector × Nat) :
    (codes.foldl (fun s v => writeFieldReversed s.1 s.2 v 7) s).2 = s.2 + 7 * codes.length := by
  induction codes generalizing s with
  | nil => rfl
  | cons c cs ih =>
    rw [List.foldl_cons, ih]
    simp only [writeFieldReversed, List.length_cons]
    ring

theorem foldl_writeFieldReversed_getD (codes : List Nat) (s : BitVector × Nat) (j : Nat)
    (hroom : s.2 + 7 * codes.length ≤ s.1.length) :
    (codes.foldl (fun s v => writeFieldReversed s.1 s.2 v 7) s).1.getD j false =
      if s.2 ≤ j ∧ j < s.2 + 7 * codes.length
      then (codes.getD ((j - s.2) / 7) 0).testBit ((j - s.2) % 7)
      else s.1.getD j false := by
  induction codes generalizing s with
  | nil =>
    simp only [List.foldl_nil, List.length_nil, Nat.mul_zero, Nat.add_zero]
    rw [if_neg (by omega)]
  | cons c cs ih =>
    simp only [List.length_cons] at hroom
    rw [List.foldl_cons, ih _ (by
      simp only [writeFieldReversed, fillFieldReversed_length]
      omega)]
    simp only [writeFieldReversed, List.length_cons]
    by_cases h1 : s.2 + 7 ≤ j ∧ j < s.2 + 7 + 7 * cs.length
    · rw [if_pos h1, if_pos (by omega)]
      have e1 : (j - s.2) / 7 = (j - (s.2 + 7)) / 7 + 1 := by omega
      have e2 : (j - s.2) % 7 = (j - (s.2 + 7)) % 7 := by omega
      rw [e1, e2, List.getD_cons_succ]
    · rw [if_neg h1, fillFieldReversed_getD]
      by_cases h2 : s.2 ≤ j ∧ j < s.2 + 7 ∧ j < s.1.length
      · rw [if_pos h2, if_pos (by omega)]
        have e1 : (j - s.2) / 7 = 0 := by omega
        have e2 : (j - s.2) % 7 = j - s.2 := by omega
        rw [e1, e2, List.getD_cons_zero]
      · rw [if_neg h2, if_neg (by omega)]

theorem LSB8MSB_length (bits : BitVector) : (LSB8MSB bits).length = bits.length := by
  induction bits using LSB8MSB.induct with
  | case1 b0 b1 b2 b3 b4 b5 b6 b7 rest ih => simp [LSB8MSB, ih]
  | case2 bits h => rw [LSB8MSB]; intro b0 b1 b2 b3 b4 b5 b6 b7 rest hb; exact h _ _ _ _ _ _ _ _ _ hb

theorem LSB8MSB_getD (bits : BitVector) (i : Nat) (hi : i < 8 * (bits.length / 8)) :
    (LSB8MSB bits).getD i false = bits.getD (8 * (i / 8) + (7 - i % 8)) false := by
  induction bits using LSB8MSB.induct generalizing i with
  | case1 b0 b1 b2 b3 b4 b5 b6 b7 rest ih =>
    rw [LSB8MSB]
    by_cases h8 : i < 8
    · interval_cases i <;> rfl
    · obtain ⟨j, rfl⟩ : ∃ j, i = j + 8 := ⟨i - 8, by omega⟩
      have hj : j < 8 * (rest.length / 8) := by
        simp only [List.length_cons] at hi
        omega
      have e : 8 * ((j + 8) / 8) + (7 - (j + 8) % 8) = (8 * (j / 8) + (7 - j % 8)) + 8 := by
        omega
      rw [e]
      simp only [List.getD_cons_succ]
      exact ih j hj
  | case2 bits h =>
    exfalso
    match bits, h, hi with
    | [], _, hi => simp only [List.length_cons, List.length_nil] at hi; omega
    | [_], _, hi => simp only [List.length_cons, List.length_nil] at hi; omega
    | [_, _], _, hi => simp only [List.length_cons, List.length_nil] at hi; omega
    | [_, _, _], _, hi => simp only [List.length_cons, List.length_nil] at hi; omega
    | [_, _, _, _], _, hi => simp only [List.length_cons, List.length_nil] at hi; omega
    | [_, _, _, _, _], _, hi => simp only [List.length_cons, List.length_nil] at hi; omega
    | [_, _, _, _, _, _], _, hi => simp only [List.length_cons, List.length_nil] at hi; omega
    | [_, _, _, _, _, _, _], _, hi => simp only [List.length_cons, List.length_nil] at hi; omega
    | b0 :: b1 :: b2 :: b3 :: b4 :: b5 :: b6 :: b7 :: rest, h, _ =>
      exact h b0 b1 b2 b3 b4 b5 b6 b7 rest rfl

theorem putSegment_getD_mid (bits seg : BitVector) (start i : Nat) (hs : start ≤ bits.length)
    (h1 : start ≤ i) (h2 : i < start + seg.length) :
    (putSegment bits start seg).getD i false = seg.getD (i - start) false := by
  unfold putSegment
  have hl : (bits.take start).length = start := by simp; omega
  rw [List.getD_eq_getElem?_getD, List.getD_eq_getElem?_getD, List.append_assoc,
    List.getElem?_append_right (by omega), hl, List.getElem?_append_left (by omega)]

theorem packed_region_getD (chars : BitVector) (codes : List Nat) (nsb i : Nat)
    (hcodes : ∀ c ∈ codes, c < 128) (hL : chars.length = 7 * codes.length + nsb)
    (h8 : (7 * codes.length + nsb) % 8 = 0) (hi : i < chars.length) :
    (LSB8MSB (writeField (codes.foldl (fun s v => writeFieldReversed s.1 s.2 v 7) (chars, 0)).1
        (codes.foldl (fun s v => writeFieldReversed s.1 s.2 v 7) (chars, 0)).2 0 nsb).1).getD
        i false
      = (packSeptets codes).testBit (8 * (i / 8) + (7 - i % 8)) := by
  have hlen1 := foldl_writeFieldReversed_length codes (chars, 0)
  have hcur := foldl_writeFieldReversed_cursor_codes codes (chars, 0)
  simp only [Nat.zero_add] at hcur hlen1
  have hbits : ∀ j, j < chars.length →
      (writeField (codes.foldl (fun s v => writeFieldReversed s.1 s.2 v 7) (chars, 0)).1
        (codes.foldl (fun s v => writeFieldReversed s.1 s.2 v 7) (chars, 0)).2 0 nsb).1.getD
        j false = (packSeptets codes).testBit j := by
    intro j hj
    rw [packSeptets_testBit codes hcodes]
    simp only [writeField]
    rw [fillField_getD, hcur, hlen1]
    by_cases h1 : 7 * codes.length ≤ j ∧ j < 7 * codes.length + nsb ∧ j < chars.length
    · rw [if_pos h1, Nat.zero_testBit]
      have : codes.length ≤ j / 7 := by omega
      rw [List.getD_eq_default _ _ this, Nat.zero_testBit]
    · rw [if_neg h1, foldl_writeFieldReversed_getD codes (chars, 0) j (by
        simp only [Nat.zero_add]; omega)]
      simp only [Nat.zero_add, Nat.sub_zero]
      rw [if_pos ⟨Nat.zero_le _, by omega⟩]
  have hlen2 : (writeField (codes.foldl (fun s v => writeFieldReversed s.1 s.2 v 7) (chars, 0)).1
        (codes.foldl (fun s v => writeFieldReversed s.1 s.2 v 7) (chars, 0)).2 0 nsb).1.length
      = chars.length := by
    simp only [writeField, fillField_length, hlen1]
  rw [LSB8MSB_getD _ _ (by rw [hlen2]; omega), hbits _ (by omega)]

theorem writeV_default_eq (encodeGSMChar : Int → Int) (self : L3NetworkName)
    (dest : L3Frame) (wp : Nat) (h7 : self.mAlphabet = GSMAlphabet.ALPHABET_7BIT)
    (hlen : self.mName.length * 7 + 7 < 4294967296) :
    (self.writeV encodeGSMChar dest wp).1
      = putSegment
          (fillField dest wp
            ((0x1 <<< 7) ||| (0x0 <<< 4) ||| (self.mCI <<< 3) ||| numSpareBits self.mName.length)
            8)
          (wp + 8)
          (LSB8MSB (writeField
            ((self.mName.map (fun c => toU64 (encodeGSMChar c))).foldl
              (fun s v => writeFieldReversed s.1 s.2 v 7)
              (segment (fillField dest wp
                ((0x1 <<< 7) ||| (0x0 <<< 4) ||| (self.mCI <<< 3)
                  ||| numSpareBits self.mName.length) 8) (wp + 8)
                (self.mName.length * 7 + numSpareBits self.mName.length), 0)).1
            ((self.mName.map (fun c => toU64 (encodeGSMChar c))).foldl
              (fun s v => writeFieldReversed s.1 s.2 v 7)
              (segment (fillField dest wp
                ((0x1 <<< 7) ||| (0x0 <<< 4) ||| (self.mCI <<< 3)
                  ||| numSpareBits self.mName.length) 8) (wp + 8)
                (self.mName.length * 7 + numSpareBits self.mName.length), 0)).2
            0 (numSpareBits self.mName.length)).1) := by
  have hsz : self.mName.length % 4294967296 = self.mName.length :=
    Nat.mod_eq_of_lt (by omega)
  have hk : numSpareBits self.mName.length ≤ 7 := by rw [numSpareBits_eq]; omega
  have hspan : (self.mName.length * 7 % 4294967296 + numSpareBits self.mName.length)
      % 4294967296 = self.mName.length * 7 + numSpareBits self.mName.length := by
    omega
  simp only [L3NetworkName.writeV, h7, reduceCtorEq, if_false, writeField, hsz, hspan,
    List.take_length, List.foldl_map]

/-- C17: in the default alphabet, for every name whose characters encode to
7-bit codes c_0 .. c_(sz-1), after `writeV` byte k of the region behind the
header, read most-significant-bit-first, is
`((sum over i of c_i * 2^(7*i)) >> (8*k)) & 0xFF` for every
k < (sz*7 + numSpareBits)/8: the standard packing of septets. The sum is below
2^(7*sz), so the spare bits are zero in the most significant bits of the last
byte. -/
theorem writeV_default_septet_packing (encodeGSMChar : Int → Int) (self : L3NetworkName)
    (dest : L3Frame) (wp : Nat) (h7 : self.mAlphabet = GSMAlphabet.ALPHABET_7BIT)
    (hlen : self.mName.length * 7 + 7 < 4294967296)
    (hcodes : ∀ c ∈ self.mName, toU64 (encodeGSMChar c) < 128)
    (hroom : wp + 8 + (self.mName.length * 7 + numSpareBits self.mName.length)
      ≤ dest.length) :
    (∀ k, k < (self.mName.length * 7 + numSpareBits self.mName.length) / 8 →
      peekField (self.writeV encodeGSMChar dest wp).1 (wp + 8 + 8 * k) 8
        = (septetSum (self.mName.map (fun c => toU64 (encodeGSMChar c))) >>> (8 * k))
            &&& 0xFF) ∧
    septetSum (self.mName.map (fun c => toU64 (encodeGSMChar c)))
      < 2 ^ (7 * self.mName.length) ∧
    (0 < self.mName.length →
      peekField (self.writeV encodeGSMChar dest wp).1
          (wp + 8 + 8 * ((self.mName.length * 7 + numSpareBits self.mName.length) / 8 - 1)) 8
        < 2 ^ (8 - numSpareBits self.mName.length)) := by
  have hnsb := numSpareBits_eq self.mName.length
  generalize hcs : self.mName.map (fun c => toU64 (encodeGSMChar c)) = codes at *
  have hclen : codes.length = self.mName.length := by rw [← hcs, List.length_map]
  have hc128 : ∀ c ∈ codes, c < 128 := by
    intro c hc
    rw [← hcs] at hc
    obtain ⟨x, hx, rfl⟩ := List.mem_map.mp hc
    exact hcodes x hx
  have hlt := packSeptets_lt codes hc128
  rw [hclen] at hlt
  have hbyte : ∀ k, k < (self.mName.length * 7 + numSpareBits self.mName.length) / 8 →
      peekField (self.writeV encodeGSMChar dest wp).1 (wp + 8 + 8 * k) 8
        = (packSeptets codes >>> (8 * k)) &&& 0xFF := by
    intro k hk
    have h := peekField_testBit (self.writeV encodeGSMChar dest wp).1 (wp + 8 + 8 * k)
      (packSeptets codes >>> (8 * k)) 8 (by
        intro m hm
        rw [writeV_default_eq encodeGSMChar self dest wp h7 hlen, hcs,
          putSegment_getD_mid _ _ _ _ (by rw [fillField_length]; omega) (by omega) (by
            rw [LSB8MSB_length]
            simp only [writeField, fillField_length, foldl_writeFieldReversed_length, segment,
              List.length_take, List.length_drop]
            omega)]
        have e : wp + 8 + 8 * k + m - (wp + 8) = 8 * k + m := by omega
        rw [e, packed_region_getD _ codes _ _ hc128 (by
            simp only [segment, List.length_take, List.length_drop, fillField_length]
            omega) (by rw [hclen]; omega) (by
            simp only [segment, List.length_take, List.length_drop, fillField_length]
            omega), Nat.testBit_shiftRight]
        congr 1
        omega)
    rw [h]
    exact (Nat.and_pow_two_sub_one_eq_mod _ 8).symm
  refine ⟨?_, ?_, ?_⟩
  · intro k hk
    rw [septetSum_eq_packSeptets]
    exact hbyte k hk
  · rw [septetSum_eq_packSeptets]
    exact hlt
  · intro hpos
    rw [hbyte _ (by omega), Nat.and_pow_two_sub_one_eq_mod _ 8]
    apply lt_of_le_of_lt (Nat.mod_le _ _)
    rw [Nat.shiftRight_eq_div_pow]
    apply Nat.div_lt_of_lt_mul
    rw [← pow_add]
    have e : 8 * ((self.mName.length * 7 + numSpareBits self.mName.length) / 8 - 1)
        + (8 - numSpareBits self.mName.length) = 7 * self.mName.length := by
      omega
    rw [e]
    exact hlt

/-- Witness of C17 at the name "Test": the packed bytes are D4 F2 9C 0E, the
last one with its four spare bits zero. -/
theorem writeV_default_septet_packing_witness :
    peekField (L3NetworkName.writeV (fun c => c)
      ⟨GSMAlphabet.ALPHABET_7BIT, [84, 101, 115, 116], 0⟩ (List.replicate 40 false) 0).1
      (0 + 8 + 8 * 0) 8 = 0xD4 ∧
    peekField (L3NetworkName.writeV (fun c => c)
      ⟨GSMAlphabet.ALPHABET_7BIT, [84, 101, 115, 116], 0⟩ (List.replicate 40 false) 0).1
      (0 + 8 + 8 * 3) 8 = 0x0E := by
  have h := writeV_default_septet_packing (fun c => c)
    ⟨GSMAlphabet.ALPHABET_7BIT, [84, 101, 115, 116], 0⟩ (List.replicate 40 false) 0 rfl
    (by decide) (by decide) (by decide)
  exact ⟨(h.1 0 (by decide)).trans (by decide), (h.1 3 (by decide)).trans (by decide)⟩

theorem putSegment_length (bits seg : BitVector) (start : Nat)
    (h : start + seg.length ≤ bits.length) :
    (putSegment bits start seg).length = bits.length := by
  simp only [putSegment, List.length_append, List.length_take, List.length_drop]
  omega

theorem putSegment_getD_ge (bits seg : BitVector) (start i : Nat) (hs : start ≤ bits.length)
    (hi : start + seg.length ≤ i) :
    (putSegment bits start seg).getD i false = bits.getD i false := by
  unfold putSegment
  have hl : (bits.take start ++ seg).length = start + seg.length := by
    simp only [List.length_append, List.length_take]; omega
  rw [List.getD_eq_getElem?_getD, List.getD_eq_getElem?_getD,
    List.getElem?_append_right (by omega), hl, List.getElem?_drop]
  congr 2
  omega

theorem septet_region_getD (chars : BitVector) (codes : List Nat) (nsb i : Nat)
    (hL : chars.length = 7 * codes.length + nsb)
    (h8 : (7 * codes.length + nsb) % 8 = 0) (hi : i < chars.length) :
    (LSB8MSB (writeField (codes.foldl (fun s v => writeFieldReversed s.1 s.2 v 7) (chars, 0)).1
        (codes.foldl (fun s v => writeFieldReversed s.1 s.2 v 7) (chars, 0)).2 0 nsb).1).getD
        i false
      = septetBit codes (8 * (i / 8) + (7 - i % 8)) := by
  have hlen1 := foldl_writeFieldReversed_length codes (chars, 0)
  have hcur := foldl_writeFieldReversed_cursor_codes codes (chars, 0)
  simp only [Nat.zero_add] at hcur hlen1
  have hbits : ∀ j, j < chars.length →
      (writeField (codes.foldl (fun s v => writeFieldReversed s.1 s.2 v 7) (chars, 0)).1
        (codes.foldl (fun s v => writeFieldReversed s.1 s.2 v 7) (chars, 0)).2 0 nsb).1.getD
        j false = septetBit codes j := by
    intro j hj
    unfold septetBit
    simp only [writeField]
    rw [fillField_getD, hcur, hlen1]
    by_cases h1 : 7 * codes.length ≤ j ∧ j < 7 * codes.length + nsb ∧ j < chars.length
    · rw [if_pos h1, Nat.zero_testBit]
      have : codes.length ≤ j / 7 := by omega
      rw [List.getD_eq_default _ _ this, Nat.zero_testBit]
    · rw [if_neg h1, foldl_writeFieldReversed_getD codes (chars, 0) j (by
        simp only [Nat.zero_add]; omega)]
      simp only [Nat.zero_add, Nat.sub_zero]
      rw [if_pos ⟨Nat.zero_le _, by omega⟩]
  have hlen2 : (writeField (codes.foldl (fun s v => writeFieldReversed s.1 s.2 v 7) (chars, 0)).1
        (codes.foldl (fun s v => writeFieldReversed s.1 s.2 v 7) (chars, 0)).2 0 nsb).1.length
      = chars.length := by
    simp only [writeField, fillField_length, hlen1]
  rw [LSB8MSB_getD _ _ (by rw [hlen2]; omega), hbits _ (by omega)]

/-- C2: in the default alphabet, for every name of length sz (`strlen` as a
32-bit `unsigned`), `numSpareBits` is `(8 - (sz*7) mod 8) mod 8`, it lies in
[0,7], the write cursor advances by `8 + sz*7 + numSpareBits`, and
`sz*7 + numSpareBits` is a multiple of 8. When `sz*7` does not wrap and the
frame has room, the bits written behind the header are exactly those
`sz*7 + numSpareBits` bits: the frame keeps its length, no bit before the
header or behind the region changes, and every bit of the region is set from
the name alone, whatever the frame held: bit `i` of the region is bit
`8*(i/8) + 7 - i mod 8` of the stream of 7-bit codes, false behind the last
code. -/
theorem writeV_default_alignment (encodeGSMChar : Int → Int) (self : L3NetworkName)
    (dest : L3Frame) (wp : Nat) (h7 : self.mAlphabet = GSMAlphabet.ALPHABET_7BIT) :
    numSpareBits (self.mName.length % 4294967296)
        = (8 - (self.mName.length % 4294967296 * 7) % 8) % 8 ∧
    numSpareBits (self.mName.length % 4294967296) ≤ 7 ∧
    (self.writeV encodeGSMChar dest wp).2
        = wp + 8 + (self.mName.length % 4294967296 * 7
            + numSpareBits (self.mName.length % 4294967296)) ∧
    (self.mName.length % 4294967296 * 7
        + numSpareBits (self.mName.length % 4294967296)) % 8 = 0 ∧
    (self.mName.length * 7 + 7 < 4294967296 →
      wp + 8 + (self.mName.length * 7 + numSpareBits self.mName.length) ≤ dest.length →
      (self.writeV encodeGSMChar dest wp).1.length = dest.length ∧
      (∀ i, i < wp ∨ wp + 8 + (self.mName.length * 7 + numSpareBits self.mName.length) ≤ i →
        (self.writeV encodeGSMChar dest wp).1.getD i false = dest.getD i false) ∧
      (∀ i, i < self.mName.length * 7 + numSpareBits self.mName.length →
        (self.writeV encodeGSMChar dest wp).1.getD (wp + 8 + i) false
          = septetBit (self.mName.map (fun c => toU64 (encodeGSMChar c)))
              (8 * (i / 8) + (7 - i % 8)))) := by
  refine ⟨numSpareBits_eq _, ?_, ?_, ?_, ?_⟩
  · rw [numSpareBits_eq]; omega
  · simp only [L3NetworkName.writeV, h7, reduceCtorEq, if_false, writeField,
      foldl_writeFieldReversed_cursor, List.length_take]
    have : min (self.mName.length % 4294967296) self.mName.length
        = self.mName.length % 4294967296 := Nat.min_eq_left (Nat.mod_le _ _)
    rw [this]
    omega
  · rw [numSpareBits_eq]; omega
  · intro hlen hroom
    have hnsb := numSpareBits_eq self.mName.length
    have hout := writeV_default_eq encodeGSMChar self dest wp h7 hlen
    generalize hcs : self.mName.map (fun c => toU64 (encodeGSMChar c)) = codes at *
    have hclen : codes.length = self.mName.length := by rw [← hcs, List.length_map]
    generalize hH : (0x1 <<< 7) ||| (0x0 <<< 4) ||| (self.mCI <<< 3)
      ||| numSpareBits self.mName.length = H at *
    have hseg : (segment (fillField dest wp H 8) (wp + 8)
        (self.mName.length * 7 + numSpareBits self.mName.length)).length
        = 7 * codes.length + numSpareBits self.mName.length := by
      simp only [segment, List.length_take, List.length_drop, fillField_length]
      omega
    have hreg : (LSB8MSB (writeField
        (codes.foldl (fun s v => writeFieldReversed s.1 s.2 v 7)
          (segment (fillField dest wp H 8) (wp + 8)
            (self.mName.length * 7 + numSpareBits self.mName.length), 0)).1
        (codes.foldl (fun s v => writeFieldReversed s.1 s.2 v 7)
          (segment (fillField dest wp H 8) (wp + 8)
            (self.mName.length * 7 + numSpareBits self.mName.length), 0)).2
        0 (numSpareBits self.mName.length)).1).length
        = self.mName.length * 7 + numSpareBits self.mName.length := by
      rw [LSB8MSB_length]
      simp only [writeField, fillField_length, foldl_writeFieldReversed_length]
      rw [hseg]
      omega
    refine ⟨?_, ?_, ?_⟩
    · rw [hout, putSegment_length _ _ _ (by rw [hreg, fillField_length]; omega),
        fillField_length]
    · intro i hi
      rw [hout]
      rcases hi with hi | hi
      · rw [putSegment_getD_lt _ _ _ _ (by omega) (by rw [fillField_length]; omega),
          fillField_getD, if_neg (by omega)]
      · rw [putSegment_getD_ge _ _ _ _ (by rw [fillField_length]; omega)
            (by rw [hreg]; omega),
          fillField_getD, if_neg (by omega)]
    · intro i hi
      rw [hout, putSegment_getD_mid _ _ _ _ (by rw [fillField_length]; omega) (by omega)
        (by rw [hreg]; omega)]
      have e : wp + 8 + i - (wp + 8) = i := by omega
      rw [e]
      exact septet_region_getD _ codes _ _ hseg (by rw [hclen]; omega) (by rw [hseg]; omega)

/-- Witness of C2 at the name "Test" on a 40-bit frame of ones: the cursor
ends at 40, the frame keeps its 40 bits, and the last bit of the region, a
spare bit, is written as zero. -/
theorem writeV_default_alignment_witness :
    numSpareBits 4 ≤ 7 ∧
    (L3NetworkName.writeV (fun c => c) ⟨GSMAlphabet.ALPHABET_7BIT, [84, 101, 115, 116], 0⟩
      (List.replicate 40 true) 0).2 = 40 ∧
    (L3NetworkName.writeV (fun c => c) ⟨GSMAlphabet.ALPHABET_7BIT, [84, 101, 115, 116], 0⟩
      (List.replicate 40 true) 0).1.length = 40 ∧
    (L3NetworkName.writeV (fun c => c) ⟨GSMAlphabet.ALPHABET_7BIT, [84, 101, 115, 116], 0⟩
      (List.replicate 40 true) 0).1.getD (0 + 8 + 24) false = false := by
  have h := writeV_default_alignment (fun c => c)
    ⟨GSMAlphabet.ALPHABET_7BIT, [84, 101, 115, 116], 0⟩ (List.replicate 40 true) 0 rfl
  have h2 := h.2.2.2.2 (by decide) (by decide)
  exact ⟨h.2.1, h.2.2.1, h2.1, (h2.2.2 24 (by decide)).trans (by decide)⟩

theorem CMServiceType_parseVSteps_agrees (self : L3CMServiceType) (src : L3Frame) (rp : Nat) :
    ∃ rp2, L3CMServiceType.parseVSteps src (self, rp)
      = match self.parseV src rp with
        | .ok r => (.ok (), r)
        | .error e => (.error e, (self, rp2)) := by
  simp only [L3CMServiceType.parseVSteps, L3CMServiceType.parseV, ParseStep.andThen, readStep,
    storeStep, bind, Except.bind, pure, Except.pure]
  generalize readField src rp 4 = x0
  rcases x0 with e | r0
  · exact ⟨_, rfl⟩
  · exact ⟨0, rfl⟩

theorem SRES_parseVSteps_agrees (self : L3AuthenticationParameterSRES) (src : L3Frame)
    (rp : Nat) :
    ∃ rp2, L3AuthenticationParameterSRES.parseVSteps src (self, rp)
      = match self.parseV src rp with
        | .ok r => (.ok (), r)
        | .error e => (.error e, (self, rp2)) := by
  simp only [L3AuthenticationParameterSRES.parseVSteps, L3AuthenticationParameterSRES.parseV,
    ParseStep.andThen, readStep, storeStep, bind, Except.bind, pure, Except.pure]
  generalize readField src rp 32 = x0
  rcases x0 with e | r0
  · exact ⟨_, rfl⟩
  · exact ⟨0, rfl⟩

theorem TimeZoneAndTime_parseVSteps_agrees (timegm : Tm → Int) (self : L3TimeZoneAndTime)
    (src : L3Frame) (rp : Nat) :
    ∃ rp2, L3TimeZoneAndTime.parseVSteps timegm src (self, rp)
      = match self.parseV timegm src rp with
        | .ok r => (.ok (), r)
        | .error e => (.error e, (self, rp2)) := by
  simp only [L3TimeZoneAndTime.parseVSteps, L3TimeZoneAndTime.parseV,
    L3TimeZoneAndTime.parseFields, ParseStep.andThen, readStep, storeStep, bind, Except.bind,
    pure, Except.pure]
  generalize readField src rp 4 = x0
  rcases x0 with e | r0
  · exact ⟨_, rfl⟩
  dsimp only
  generalize readField src r0.2 4 = x1
  rcases x1 with e | r1
  · exact ⟨_, rfl⟩
  dsimp only
  generalize readField src r1.2 4 = x2
  rcases x2 with e | r2
  · exact ⟨_, rfl⟩
  dsimp only
  generalize readField src r2.2 4 = x3
  rcases x3 with e | r3
  · exact ⟨_, rfl⟩
  dsimp only
  generalize readField src r3.2 4 = x4
  rcases x4 with e | r4
  · exact ⟨_, rfl⟩
  dsimp only
  generalize readField src r4.2 4 = x5
  rcases x5 with e | r5
  · exact ⟨_, rfl⟩
  dsimp only
  generalize readField src r5.2 4 = x6
  rcases x6 with e | r6
  · exact ⟨_, rfl⟩
  dsimp only
  generalize readField src r6.2 4 = x7
  rcases x7 with e | r7
  · exact ⟨_, rfl⟩
  dsimp only
  generalize readField src r7.2 4 = x8
  rcases x8 with e | r8
  · exact ⟨_, rfl⟩
  dsimp only
  generalize readField src r8.2 4 = x9
  rcases x9 with e | r9
  · exact ⟨_, rfl⟩
  dsimp only
  generalize readField src r9.2 4 = x10
  rcases x10 with e | r10
  · exact ⟨_, rfl⟩
  dsimp only
  generalize readField src r10.2 4 = x11
  rcases x11 with e | r11
  · exact ⟨_, rfl⟩
  dsimp only
  generalize readField src r11.2 1 = x12
  rcases x12 with e | r12
  · exact ⟨_, rfl⟩
  dsimp only
  generalize readField src r12.2 3 = x13
  rcases x13 with e | r13
  · exact ⟨_, rfl⟩
  dsimp only
  generalize readField src r13.2 4 = x14
  rcases x14 with e | r14
  · exact ⟨_, rfl⟩
  dsimp only
  exact ⟨0, rfl⟩

/-- C15: on a frame with fewer bits left at the read cursor than the element
reads (4 for the service type, 32 for SRES, 56 for the time zone and time),
`parseV` fails with the frame's out-of-range error, and the run of its body
ends in that error with the element exactly as it was before the call: the
assignment to `mType`, `mSRES` or `mTime` is not reached, so no partly decoded
value is stored. For the time zone and time this holds whichever of the
fifteen reads is the first not to fit. -/
theorem parseV_truncated (timegm : Tm → Int) (st : L3CMServiceType)
    (sres : L3AuthenticationParameterSRES) (tz : L3TimeZoneAndTime) (src : L3Frame)
    (rp : Nat) :
    (src.length < rp + 4 →
      st.parseV src rp = .error FrameError.outOfRange ∧
      L3CMServiceType.parseVSteps src (st, rp) = (.error FrameError.outOfRange, (st, rp))) ∧
    (src.length < rp + 32 →
      sres.parseV src rp = .error FrameError.outOfRange ∧
      L3AuthenticationParameterSRES.parseVSteps src (sres, rp)
        = (.error FrameError.outOfRange, (sres, rp))) ∧
    (src.length < rp + 56 →
      tz.parseV timegm src rp = .error FrameError.outOfRange ∧
      ∃ rp2, L3TimeZoneAndTime.parseVSteps timegm src (tz, rp)
        = (.error FrameError.outOfRange, (tz, rp2))) := by
  refine ⟨fun h => ?_, fun h => ?_, fun h => ?_⟩
  · have hr : readField src rp 4 = .error FrameError.outOfRange := by
      simp [readField, Nat.not_le.mpr h]
    constructor
    · simp only [L3CMServiceType.parseV, hr, bind, Except.bind]
    · simp only [L3CMServiceType.parseVSteps, ParseStep.andThen, readStep, hr]
  · have hr : readField src rp 32 = .error FrameError.outOfRange := by
      simp [readField, Nat.not_le.mpr h]
    constructor
    · simp only [L3AuthenticationParameterSRES.parseV, hr, bind, Except.bind]
    · simp only [L3AuthenticationParameterSRES.parseVSteps, ParseStep.andThen, readStep, hr]
  · have e : tz.parseV timegm src rp = .error FrameError.outOfRange := by
      simp only [L3TimeZoneAndTime.parseV, parseFields_error src rp h, bind, Except.bind]
    obtain ⟨rp2, h2⟩ := TimeZoneAndTime_parseVSteps_agrees timegm tz src rp
    rw [e] at h2
    exact ⟨e, rp2, h2⟩

/-- Witness of C15: a 3-bit frame for the service type, a 31-bit frame for
SRES, and for the time zone and time a 50-bit frame, on which the first
thirteen reads succeed and the fourteenth fails. -/
theorem parseV_truncated_witness :
    L3CMServiceType.parseVSteps (List.replicate 3 true) (L3CMServiceType.mk 7, 0)
      = (.error FrameError.outOfRange, (L3CMServiceType.mk 7, 0)) ∧
    L3AuthenticationParameterSRES.parseVSteps (List.replicate 31 true)
        (L3AuthenticationParameterSRES.mk 7, 0)
      = (.error FrameError.outOfRange, (L3AuthenticationParameterSRES.mk 7, 0)) ∧
    (L3TimeZoneAndTime.mk ⟨7, 0⟩ TimeType.UTC_TIME).parseV (fun t => t.tm_sec)
        (List.replicate 50 false) 0 = .error FrameError.outOfRange ∧
    ∃ rp2, L3TimeZoneAndTime.parseVSteps (fun t => t.tm_sec) (List.replicate 50 false)
        (L3TimeZoneAndTime.mk ⟨7, 0⟩ TimeType.UTC_TIME, 0)
      = (.error FrameError.outOfRange, (L3TimeZoneAndTime.mk ⟨7, 0⟩ TimeType.UTC_TIME, rp2)) :=
  ⟨((parseV_truncated (fun t => t.tm_sec) (L3CMServiceType.mk 7)
      (L3AuthenticationParameterSRES.mk 7) (L3TimeZoneAndTime.mk ⟨7, 0⟩ TimeType.UTC_TIME)
      (List.replicate 3 true) 0).1 (by simp)).2,
   ((parseV_truncated (fun t => t.tm_sec) (L3CMServiceType.mk 7)
      (L3AuthenticationParameterSRES.mk 7) (L3TimeZoneAndTime.mk ⟨7, 0⟩ TimeType.UTC_TIME)
      (List.replicate 31 true) 0).2.1 (by simp)).2,
   (parseV_truncated (fun t => t.tm_sec) (L3CMServiceType.mk 7)
      (L3AuthenticationParameterSRES.mk 7) (L3TimeZoneAndTime.mk ⟨7, 0⟩ TimeType.UTC_TIME)
      (List.replicate 50 false) 0).2.2 (by simp)⟩

end GSM
